import Mathlib

/-!
Shallow embedding of the Flutter translation script (src/translate.py):
string classification, key generation, span extraction, rewriting, the
TODO-comment pass and ARB key assignment, with theorems checking the
specification's claims against these definitions.

Strings are modelled as their character lists; ASCII semantics is used for
the Python character predicates (all inputs of interest are ASCII).
-/

/-- The apostrophe character (ASCII 39). -/
def sqc : Char := Char.ofNat 39

/-- The double-quote character. -/
def dqc : Char := '"'

/-- Python whitespace characters (as in `str.split`, `str.strip`, regex `\s`). -/
def isPyWS (c : Char) : Bool :=
  c = ' ' || c = '\t' || c = '\n' || c = '\r' || c = '\x0b' || c = '\x0c'

def isAsciiDigit (c : Char) : Bool := 48 ≤ c.toNat && c.toNat ≤ 57

def isAsciiLower (c : Char) : Bool := 97 ≤ c.toNat && c.toNat ≤ 122

def isAsciiUpper (c : Char) : Bool := 65 ≤ c.toNat && c.toNat ≤ 90

def isAsciiAlpha (c : Char) : Bool := isAsciiLower c || isAsciiUpper c

def isAsciiAlnum (c : Char) : Bool := isAsciiAlpha c || isAsciiDigit c

/-- Regex word character `\w` (ASCII model). -/
def isWordChar (c : Char) : Bool := isAsciiAlnum c || c = '_'

/-- Python `str.lower` on one character (ASCII model). -/
def lowerChar (c : Char) : Char :=
  if isAsciiUpper c then Char.ofNat (c.toNat + 32) else c

def lowerStr (cs : List Char) : List Char := cs.map lowerChar

/-- `p` is a prefix of `l` (character lists). -/
def hasPrefixCh : List Char → List Char → Bool
  | _, [] => true
  | [], _ :: _ => false
  | c :: cs, d :: ds => c = d && hasPrefixCh cs ds

/-- Python `in` on strings: `p` occurs as a contiguous substring of `l`. -/
def hasSubCh : List Char → List Char → Bool
  | [], p => p.isEmpty
  | l@(_ :: cs), p => hasPrefixCh l p || hasSubCh cs p

/-- Python `in` on `String`s. -/
def strHasSub (s pat : String) : Bool := hasSubCh s.data pat.data

/-- Python `str.strip()` (no arguments): drop leading and trailing whitespace. -/
def pytrimList (cs : List Char) : List Char :=
  ((cs.dropWhile isPyWS).reverse.dropWhile isPyWS).reverse

def pytrim (s : String) : String := String.mk (pytrimList s.data)

/-- Maximal run of regex `\s*` dropped from the front. -/
def skipWS (cs : List Char) : List Char := cs.dropWhile isPyWS

/-- Python `str.split()` with no argument: split on whitespace runs,
no empty words. Auxiliary: `acc` is the current word, reversed. -/
def splitWSAux : List Char → List Char → List (List Char)
  | [], acc => if acc.isEmpty then [] else [acc.reverse]
  | c :: cs, acc =>
      if isPyWS c then
        if acc.isEmpty then splitWSAux cs [] else acc.reverse :: splitWSAux cs []
      else splitWSAux cs (c :: acc)

def splitWS (cs : List Char) : List (List Char) := splitWSAux cs []

/-- `'sep'.join words` on character lists. -/
def joinSep (sep : List Char) : List (List Char) → List Char
  | [] => []
  | [w] => w
  | w :: ws => w ++ sep ++ joinSep sep ws

def joinUnderscore (ws : List (List Char)) : List Char := joinSep ['_'] ws

def joinNL (ws : List (List Char)) : List Char := joinSep ['\n'] ws

/-- Decimal digits of `n`, little-endian, fuel-driven so that it reduces. -/
def decDigitsLE (fuel : Nat) (n : Nat) : List Char :=
  match fuel with
  | 0 => []
  | f + 1 =>
      if n < 10 then [Char.ofNat (48 + n)]
      else Char.ofNat (48 + n % 10) :: decDigitsLE f (n / 10)

/-- Decimal representation of a natural number (Python `str(n)` for `n ≥ 0`). -/
def natToDecimal (n : Nat) : List Char := (decDigitsLE (n + 1) n).reverse

def natToDecimalStr (n : Nat) : String := String.mk (natToDecimal n)

/-! ### Exclusion reasons and string types (the two source enums) -/

inductive ExclusionReason where
  | VARIABLE_INTERPOLATION
  | STRING_CONCATENATION
  | TECHNICAL_PATTERN
  | TOO_SHORT
  | SPECIAL_CHARACTERS
  | VARIABLE_NAME
  | CONSTANT_NAME
  | CODE_PATTERN
  | COMMENT_STRING
  | GENERATED_FILE
  deriving DecidableEq, Repr

inductive StringType where
  | TEXT_WIDGET
  | SELECTABLE_TEXT_WIDGET
  | TOOLTIP_WIDGET
  | BOTTOM_NAVIGATION_BAR_ITEM
  | PLATFORM_MENU_ITEM
  | CONTEXT_MENU_BUTTON_ITEM
  | BUTTON_STYLE_BUTTON
  | TITLE_WIDGET
  | WIDGETS_APP
  | TEXT_SPAN
  | LABEL
  | HINT
  | HEADING
  | BODY
  | TITLE
  | YES_LABEL
  | CANCEL_LABEL
  | PREFIX_TEXT
  | BUTTON_LABEL
  deriving DecidableEq, Repr

/-! ### The fixed tables of the script -/

/-- `technical_patterns` from the source, in source order. -/
def technical_patterns : List String :=
  ["http://", "https://", "api/", "endpoint", "token", "bearer", "authorization",
   "toMap", "fromMap", "json", "serialization", "deserialization",
   "dart:", "package:", "import", "export", "class", "enum", "typedef",
   "const", "final", "var", "String", "int", "bool", "double", "List", "Map",
   "Widget", "BuildContext", "MaterialApp", "Scaffold", "Container", "Column",
   "Row", "Text", "Button", "AppBar", "ListView",
   "debug", "test", "mock", "stub", "fixture", "example", "TODO", "FIXME", "HACK", "NOTE", "XXX",
   "assets/", "lib/", "test/", "android/", "ios/", ".dart", ".arb", ".json", ".yaml", ".yml",
   "controller", "key", "value", "data", "response", "request", "status", "code", "id",
   "type", "name", "email", "password", "phone", "address", "url", "uri", "path", "file",
   "folder", "directory",
   "exception", "error", "failure", "timeout", "network", "server", "client",
   "unauthorized", "forbidden", "not_found", "bad_request", "internal_server_error",
   "yyyy-MM-dd", "HH:mm:ss", "ISO", "UTC", "timestamp", "date", "time", "datetime",
   "currency", "amount", "price", "cost", "total", "sum", "count", "number",
   "decimal", "integer", "float", "double",
   "color", "style", "theme", "font", "size", "width", "height", "padding",
   "margin", "border", "radius", "shadow", "gradient", "opacity", "alpha", "rgb", "hex"]

/-- `exception_words` used inside `is_technical_string`. -/
def exception_words : List String :=
  ["email", "password", "name", "phone", "address", "type", "text"]

/-- `dart_keywords` from the source (set literal; duplicates collapse). -/
def dart_keywords : List String :=
  ["abstract", "else", "import", "show", "as", "enum", "in", "super", "assert", "export",
   "interface", "switch", "async", "extends", "is", "sync", "await", "extension", "library",
   "this", "break", "external", "mixin", "throw", "case", "factory", "new", "true", "catch",
   "false", "null", "try", "class", "final", "on", "typedef", "const", "finally", "operator",
   "var", "continue", "for", "part", "void", "covariant", "Function", "rethrow", "while",
   "default", "get", "return", "with", "deferred", "hide", "set", "yield", "do", "if",
   "dynamic", "implements", "static"]

/-- `common_words` (stop-word set) used by the long-string key derivation. -/
def common_words : List String :=
  ["the", "a", "an", "and", "or", "but", "in", "on", "at", "to", "for", "of", "with", "by"]

/-! ### The classifier `is_technical_string` -/

/-- Character class of the "special characters only" regex
`^[0-9\s\-\_\.\,\!\@\#\$\%\^\&\*\(\)\[\]\x7b\x7d\|\:\;\x27\"\<\>\?\/\\]+$`. -/
def isSpecialClassChar (c : Char) : Bool :=
  isAsciiDigit c || isPyWS c ||
  c = '-' || c = '_' || c = '.' || c = ',' || c = '!' || c = '@' || c = '#' ||
  c = '$' || c = '%' || c = '^' || c = '&' || c = '*' || c = '(' || c = ')' ||
  c = '[' || c = ']' || c = '\x7b' || c = '\x7d' || c = '|' || c = ':' || c = ';' ||
  c = sqc || c = dqc || c = '<' || c = '>' || c = '?' || c = '/' || c = '\\'

/-- Regex `^[a-z][a-zA-Z0-9]*$`: camelCase-ish identifier. -/
def matchesCamel (cs : List Char) : Bool :=
  match cs with
  | [] => false
  | c :: rest => isAsciiLower c && rest.all isAsciiAlnum

/-- Regex `^[a-z][a-z0-9_]*$`: snake_case identifier. -/
def matchesSnake (cs : List Char) : Bool :=
  match cs with
  | [] => false
  | c :: rest => isAsciiLower c && rest.all (fun d => isAsciiLower d || isAsciiDigit d || d = '_')

/-- Regex `^[A-Z_]+$`: constant name. -/
def matchesConstant (cs : List Char) : Bool :=
  !cs.isEmpty && cs.all (fun c => isAsciiUpper c || c = '_')

/-- The Dart interpolation opener `$\x7b` as a character list. -/
def dollarBrace : List Char := ['$', '\x7b']

/-- `is_technical_string` from the source: classify a candidate literal,
returning the exclusion reason, or `none` when the literal is accepted. -/
def is_technical_string (s : String) : Option ExclusionReason :=
  let cs := s.data
  -- single alphabetic character
  if cs.length = 1 && cs.all isAsciiAlpha then some ExclusionReason.TOO_SHORT
  -- purely numeric (Python str.isdigit: nonempty, all digits)
  else if !cs.isEmpty && cs.all isAsciiDigit then some ExclusionReason.TOO_SHORT
  -- only punctuation / whitespace / digits
  else if !cs.isEmpty && cs.all isSpecialClassChar then some ExclusionReason.SPECIAL_CHARACTERS
  -- technical pattern, unless a user-facing exception word occurs
  else if !(exception_words.any fun w => hasSubCh (lowerStr cs) w.data) &&
          (technical_patterns.any fun p => hasSubCh (lowerStr cs) (lowerStr p.data)) then
    some ExclusionReason.TECHNICAL_PATTERN
  -- variable name shape
  else if matchesCamel cs || matchesSnake cs then some ExclusionReason.VARIABLE_NAME
  -- constant shape
  else if matchesConstant cs then some ExclusionReason.CONSTANT_NAME
  -- code pattern: parentheses present and no interpolation marker
  else if (cs.contains '(' || cs.contains ')') && !hasSubCh cs dollarBrace then
    some ExclusionReason.CODE_PATTERN
  else none

/-! ### MD5 (needed by the long-string branch of `generate_key_from_string`) -/

/-- Truncate to 32 bits. -/
def m32 (n : Nat) : Nat := n % 4294967296

/-- 32-bit left rotation (`x < 2^32`). -/
def rotl32 (x s : Nat) : Nat := m32 (x <<< s) ||| (x >>> (32 - s))

/-- 32-bit complement. -/
def not32 (x : Nat) : Nat := 4294967295 - x

/-- MD5 sine-derived round constants. -/
def md5K : List Nat :=
  [3614090360, 3905402710, 606105819, 3250441966,
   4118548399, 1200080426, 2821735955, 4249261313,
   1770035416, 2336552879, 4294925233, 2304563134,
   1804603682, 4254626195, 2792965006, 1236535329,
   4129170786, 3225465664, 643717713, 3921069994,
   3593408605, 38016083, 3634488961, 3889429448,
   568446438, 3275163606, 4107603335, 1163531501,
   2850285829, 4243563512, 1735328473, 2368359562,
   4294588738, 2272392833, 1839030562, 4259657740,
   2763975236, 1272893353, 4139469664, 3200236656,
   681279174, 3936430074, 3572445317, 76029189,
   3654602809, 3873151461, 530742520, 3299628645,
   4096336452, 1126891415, 2878612391, 4237533241,
   1700485571, 2399980690, 4293915773, 2240044497,
   1873313359, 4264355552, 2734768916, 1309151649,
   4149444226, 3174756917, 718787259, 3951481745]

/-- MD5 per-round rotation amounts. -/
def md5S : List Nat :=
  [7, 12, 17, 22, 7, 12, 17, 22, 7, 12, 17, 22, 7, 12, 17, 22,
   5, 9, 14, 20, 5, 9, 14, 20, 5, 9, 14, 20, 5, 9, 14, 20,
   4, 11, 16, 23, 4, 11, 16, 23, 4, 11, 16, 23, 4, 11, 16, 23,
   6, 10, 15, 21, 6, 10, 15, 21, 6, 10, 15, 21, 6, 10, 15, 21]

/-- Little-endian 8-byte encoding of the bit length. -/
def lenBytes64 (n : Nat) : List Nat :=
  [n % 256, n / 256 % 256, n / 65536 % 256, n / 16777216 % 256,
   n / 4294967296 % 256, n / 1099511627776 % 256,
   n / 281474976710656 % 256, n / 72057594037927936 % 256]

/-- MD5 padding: append `0x80`, zeros to 56 mod 64, then the 64-bit bit length. -/
def md5Pad (msg : List Nat) : List Nat :=
  let padLen := (55 + 64 - msg.length % 64) % 64 + 1
  msg ++ (128 :: List.replicate (padLen - 1) 0) ++ lenBytes64 (msg.length * 8 % 18446744073709551616)

/-- Word `g` (little-endian 32-bit) of a 64-byte chunk. -/
def md5Word (chunk : List Nat) (g : Nat) : Nat :=
  chunk.getD (4 * g) 0 + 256 * chunk.getD (4 * g + 1) 0 +
  65536 * chunk.getD (4 * g + 2) 0 + 16777216 * chunk.getD (4 * g + 3) 0

/-- One MD5 round `i` on state `(A, B, C, D)` against chunk words. -/
def md5Round (chunk : List Nat) (st : Nat × Nat × Nat × Nat) (i : Nat) : Nat × Nat × Nat × Nat :=
  let (a, b, c, d) := st
  let fg : Nat × Nat :=
    if i < 16 then ((b &&& c) ||| (not32 b &&& d), i)
    else if i < 32 then ((d &&& b) ||| (not32 d &&& c), (5 * i + 1) % 16)
    else if i < 48 then (b ^^^ c ^^^ d, (3 * i + 5) % 16)
    else (c ^^^ (b ||| not32 d), 7 * i % 16)
  let f := m32 (fg.1 + a + md5K.getD i 0 + md5Word chunk fg.2)
  (d, m32 (b + rotl32 f (md5S.getD i 0)), b, c)

/-- Compress one 64-byte chunk into the running state. -/
def md5Compress (st : Nat × Nat × Nat × Nat) (chunk : List Nat) : Nat × Nat × Nat × Nat :=
  let (a0, b0, c0, d0) := st
  let (a, b, c, d) := (List.range 64).foldl (md5Round chunk) (a0, b0, c0, d0)
  (m32 (a0 + a), m32 (b0 + b), m32 (c0 + c), m32 (d0 + d))

/-- Split into 64-byte chunks (fuel-driven for structural recursion). -/
def chunk64 (fuel : Nat) (bs : List Nat) : List (List Nat) :=
  match fuel with
  | 0 => []
  | f + 1 => if bs.isEmpty then [] else bs.take 64 :: chunk64 f (bs.drop 64)

def hexDigitChar (n : Nat) : Char :=
  Char.ofNat (if n < 10 then 48 + n else 87 + n)

/-- Lowercase hex of one byte, high nibble first. -/
def byteHex (b : Nat) : List Char := [hexDigitChar (b / 16), hexDigitChar (b % 16)]

/-- Hex of a 32-bit word, little-endian byte order (as in the MD5 digest). -/
def word32HexLE (w : Nat) : List Char :=
  byteHex (w % 256) ++ byteHex (w / 256 % 256) ++ byteHex (w / 65536 % 256) ++
  byteHex (w / 16777216 % 256)

/-- MD5 digest of a byte list, as 32 lowercase hex characters. -/
def md5HexBytes (msg : List Nat) : List Char :=
  let padded := md5Pad msg
  let chunks := chunk64 (padded.length + 1) padded
  let st := chunks.foldl md5Compress (1732584193, 4023233417, 2562383102, 271733878)
  word32HexLE st.1 ++ word32HexLE st.2.1 ++ word32HexLE st.2.2.1 ++ word32HexLE st.2.2.2

/-- UTF-8 bytes of a string; for the ASCII inputs of interest this is the
code-point list (`str.encode()` in the source). -/
def strBytes (s : String) : List Nat := s.data.map Char.toNat

/-- `hashlib.md5(string.encode()).hexdigest()`. -/
def md5hex (s : String) : List Char := md5HexBytes (strBytes s)

/-! ### `generate_key_from_string` -/

/-- Characters kept by `re.sub(r'[^a-zA-Z0-9\s]', '', string)`. -/
def keepCleanChar (c : Char) : Bool := isAsciiAlnum c || isPyWS c

/-- The cleaned, lowercased word list of a literal. -/
def keyWordsOf (s : String) : List (List Char) :=
  splitWS (lowerStr (s.data.filter keepCleanChar))

/-- Backward scan for the last meaningful word among `words[3:]`:
first from the end that is longer than 2 characters and not a stop word. -/
def lastMeaningful (ws : List (List Char)) : Option (List Char) :=
  (ws.reverse).find? fun w => decide (2 < w.length) && !(common_words.any fun c => c.data = w)

/-- The key before the digit/keyword/empty fixups (both length branches). -/
def rawKey (s : String) : List Char :=
  let words := keyWordsOf s
  if 8 < words.length then
    let key_words := words.take 3 ++
      (if 4 < words.length then (lastMeaningful (words.drop 3)).toList else [])
    joinUnderscore key_words ++ '_' :: (md5hex s).take 6
  else
    joinUnderscore words

/-- The three final fixups of `generate_key_from_string`. -/
def fixupKey (key : List Char) : List Char :=
  let key := if key ≠ [] && isAsciiDigit (key.headD ' ') then "key_".data ++ key else key
  let key := if dart_keywords.any (fun w => w.data = key) then key ++ "_text".data else key
  if key.isEmpty then "unknown_string".data else key

/-- `generate_key_from_string` from the source. -/
def generate_key_from_string (s : String) : String :=
  String.mk (fixupKey (rawKey s))

/-! ### `convert_dart_interpolation_to_arb` (three `re.sub` passes) -/

def isQuote (c : Char) : Bool := c = sqc || c = dqc

/-- Try `\$\x7b["\x27]([^"\x27]+)["\x27]\x7d` at the head: on success return
the captured content and the remaining input. -/
def matchInterpMarker (l : List Char) : Option (List Char × List Char) :=
  match l with
  | '$' :: '\x7b' :: q :: rest =>
      if isQuote q then
        let content := rest.takeWhile (fun c => !isQuote c)
        let r2 := rest.dropWhile (fun c => !isQuote c)
        if content.isEmpty then none
        else
          match r2 with
          | _ :: '\x7d' :: r3 => some (content, r3)
          | _ => none
      else none
  | _ => none

/-- First pass: replace quoted interpolation markers by `\x7bvar\x7d`. -/
def interpSub1 (fuel : Nat) (l : List Char) : List Char :=
  match fuel, l with
  | 0, l => l
  | _, [] => []
  | f + 1, c :: cs =>
      match matchInterpMarker (c :: cs) with
      | some (content, rest) => '\x7b' :: (content ++ '\x7d' :: interpSub1 f rest)
      | none => c :: interpSub1 f cs

/-- Second pass, regex `(?<!\x7b)\x7b(?!\w)`: double an opening brace not
preceded by an opening brace and not followed by a word character. -/
def interpSub2 (prev : Option Char) (l : List Char) : List Char :=
  match l with
  | [] => []
  | c :: cs =>
      if c = '\x7b' && prev ≠ some '\x7b' &&
         (match cs with | d :: _ => !isWordChar d | [] => true) then
        '\x7b' :: '\x7b' :: interpSub2 (some c) cs
      else c :: interpSub2 (some c) cs

/-- Third pass, regex `\x7d(?!\x7d)`: double a closing brace not followed by
a closing brace. -/
def interpSub3 : List Char → List Char
  | [] => []
  | c :: cs =>
      if c = '\x7d' && (match cs with | d :: _ => d ≠ '\x7d' | [] => true) then
        '\x7d' :: '\x7d' :: interpSub3 cs
      else c :: interpSub3 cs

/-- `convert_dart_interpolation_to_arb` from the source. -/
def convert_dart_interpolation_to_arb (s : String) : String :=
  String.mk (interpSub3 (interpSub2 none (interpSub1 s.data.length s.data)))

/-! ### Line-level predicates -/

def tripleSQ : List Char := [sqc, sqc, sqc]

def tripleDQ : List Char := [dqc, dqc, dqc]

/-- `is_comment_line`: stripped line starts with `//`, `/*` or `*`. -/
def is_comment_line (line : String) : Bool :=
  let st := pytrimList line.data
  hasPrefixCh st "//".data || hasPrefixCh st "/*".data || hasPrefixCh st "*".data

/-- `is_multiline_string_start`: the line contains a triple-quote delimiter. -/
def is_multiline_string_start (line : String) : Bool :=
  hasSubCh line.data tripleSQ || hasSubCh line.data tripleDQ

/-- `get_multiline_delimiter`: prefer the single-quote triple delimiter. -/
def get_multiline_delimiter (cs : List Char) : Option (List Char) :=
  if hasSubCh cs tripleSQ then some tripleSQ
  else if hasSubCh cs tripleDQ then some tripleDQ
  else none

def isIdentStart (c : Char) : Bool := isAsciiAlpha c || c = '_'

def isIdentChar (c : Char) : Bool := isAsciiAlnum c || c = '_'

/-- Pattern `["\x27][^"\x27]*["\x27]\s*\+\s*["\x27][^"\x27]*["\x27]` at the head. -/
def tryConcat1 (l : List Char) : Bool :=
  match l with
  | [] => false
  | q :: rest =>
      isQuote q &&
      (match rest.dropWhile (fun d => !isQuote d) with
       | _ :: r3 =>
           (match skipWS r3 with
            | '+' :: r4 =>
                (match skipWS r4 with
                 | q3 :: r5 => isQuote q3 && !(r5.dropWhile (fun d => !isQuote d)).isEmpty
                 | [] => false)
            | _ => false)
       | [] => false)

/-- Pattern `["\x27][^"\x27]*["\x27]\s*\+\s*[a-zA-Z_][a-zA-Z0-9_]*` at the head. -/
def tryConcat2 (l : List Char) : Bool :=
  match l with
  | [] => false
  | q :: rest =>
      isQuote q &&
      (match rest.dropWhile (fun d => !isQuote d) with
       | _ :: r3 =>
           (match skipWS r3 with
            | '+' :: r4 =>
                (match skipWS r4 with
                 | c :: _ => isIdentStart c
                 | [] => false)
            | _ => false)
       | [] => false)

/-- Pattern `[a-zA-Z_][a-zA-Z0-9_]*\s*\+\s*["\x27][^"\x27]*["\x27]` at the head. -/
def tryConcat3 (l : List Char) : Bool :=
  match l with
  | [] => false
  | c :: rest =>
      isIdentStart c &&
      (match skipWS (rest.dropWhile isIdentChar) with
       | '+' :: r4 =>
           (match skipWS r4 with
            | q :: r5 => isQuote q && !(r5.dropWhile (fun d => !isQuote d)).isEmpty
            | [] => false)
       | _ => false)

/-- `re.search` over all start positions. -/
def anySuffix (p : List Char → Bool) : List Char → Bool
  | [] => false
  | c :: cs => p (c :: cs) || anySuffix p cs

/-- `is_string_concatenation` from the source (its three regex patterns). -/
def is_string_concatenation (line : String) : Bool :=
  anySuffix tryConcat1 line.data || anySuffix tryConcat2 line.data ||
  anySuffix tryConcat3 line.data

/-- `re.findall(r'[\x27"]([^\x27"]*)[\x27"]', line)`: the quoted fragments.
State machine: `none` = outside quotes, `some acc` = inside with reversed content. -/
def findQuotedAux : Option (List Char) → List Char → List (List Char)
  | _, [] => []
  | none, c :: cs =>
      if isQuote c then findQuotedAux (some []) cs else findQuotedAux none cs
  | some acc, c :: cs =>
      if isQuote c then acc.reverse :: findQuotedAux none cs
      else findQuotedAux (some (c :: acc)) cs

def findQuoted (cs : List Char) : List (List Char) := findQuotedAux none cs

/-! ### Single-line extractors -/

/-- Split `l` at the first occurrence of `pat`: `(before, after)`. -/
def splitAtSubAux (pat : List Char) (acc l : List Char) : Option (List Char × List Char) :=
  if hasPrefixCh l pat then some (acc.reverse, l.drop pat.length)
  else
    match l with
    | [] => none
    | c :: cs => splitAtSubAux pat (c :: acc) cs

def splitAtSub (l pat : List Char) : Option (List Char × List Char) :=
  splitAtSubAux pat [] l

/-- Scan for an unescaped closing quote `q` (previous character is tracked,
starting with the opening quote itself); return the content before it. -/
def scanClose (q : Char) (prev : Char) : List Char → Option (List Char)
  | [] => none
  | c :: cs =>
      if c = q && prev ≠ '\\' then some []
      else (scanClose q c cs).map (c :: ·)

/-- Find the first quote (preferring `\x27` over `"` as `str.find` does in the
source) after the anchor, then scan for its unescaped closing quote. -/
def extractAfterQuote (post : List Char) : Option (List Char) :=
  match splitAtSub post [sqc] with
  | some (_, rest) => scanClose sqc sqc rest
  | none =>
      match splitAtSub post [dqc] with
      | some (_, rest) => scanClose dqc dqc rest
      | none => none

/-- `extract_string_from_text_widget`. -/
def extract_string_from_text_widget (line : String) : Option String :=
  match splitAtSub line.data "Text(".data with
  | some (_, post) => (extractAfterQuote post).map String.mk
  | none => none

/-- `extract_string_from_selectable_text_widget`. -/
def extract_string_from_selectable_text_widget (line : String) : Option String :=
  match splitAtSub line.data "SelectableText(".data with
  | some (_, post) => (extractAfterQuote post).map String.mk
  | none => none

/-- `extract_string_from_tooltip_widget`. -/
def extract_string_from_tooltip_widget (line : String) : Option String :=
  match splitAtSub line.data "Tooltip(".data with
  | some (_, post1) =>
      match splitAtSub post1 "message:".data with
      | some (_, post2) => (extractAfterQuote post2).map String.mk
      | none => none
  | none => none

/-- Consume the literal `pat` at the head. -/
def matchLit (pat l : List Char) : Option (List Char) :=
  if hasPrefixCh l pat then some (l.drop pat.length) else none

/-- Does a character of `terms` follow after `\s*`? -/
def termFollows (terms : List Char) (cs : List Char) : Bool :=
  match skipWS cs with
  | d :: _ => terms.contains d
  | [] => false

/-- Lazy `(.*?)` up to closing quote `q` followed (after `\s*`) by one of
`terms` (`none` = no trailing requirement): the matched content. -/
def lazyCloseQ (q : Char) (terms : Option (List Char)) : List Char → Option (List Char)
  | [] => none
  | c :: cs =>
      if c = q && (match terms with | none => true | some ts => termFollows ts cs) then
        some []
      else (lazyCloseQ q terms cs).map (c :: ·)

/-- Regex `name\s*field\s*(["\x27])(.*?)\1\s*[term]` tried at the head
(`name` ends in `(` and `field` in `:` at all call sites). -/
def tryCallField (name field : List Char) (terms : List Char) (l : List Char) : Option (List Char) :=
  match matchLit name l with
  | none => none
  | some r1 =>
      match matchLit field (skipWS r1) with
      | none => none
      | some r3 =>
          match skipWS r3 with
          | q :: r5 => if isQuote q then lazyCloseQ q (some terms) r5 else none
          | [] => none

/-- `re.search` of the call-field regex over the line. -/
def searchCallField (name field : List Char) (terms : List Char) : List Char → Option (List Char)
  | [] => none
  | c :: cs =>
      match tryCallField name field terms (c :: cs) with
      | some r => some r
      | none => searchCallField name field terms cs

/-- `extract_string_from_bottom_navigation_bar_item`: `label:` then `tooltip:`. -/
def extract_string_from_bottom_navigation_bar_item (line : String) : Option String :=
  match searchCallField "BottomNavigationBarItem(".data "label:".data [')', ','] line.data with
  | some r => some (String.mk r)
  | none =>
      (searchCallField "BottomNavigationBarItem(".data "tooltip:".data [')', ','] line.data).map String.mk

/-- `extract_string_from_platform_menu_item`. -/
def extract_string_from_platform_menu_item (line : String) : Option String :=
  (searchCallField "PlatformMenuItem(".data "label:".data [')', ','] line.data).map String.mk

/-- `extract_string_from_context_menu_button_item`. -/
def extract_string_from_context_menu_button_item (line : String) : Option String :=
  (searchCallField "ContextMenuButtonItem(".data "label:".data [')', ','] line.data).map String.mk

/-- `extract_string_from_button_style_button`. -/
def extract_string_from_button_style_button (line : String) : Option String :=
  (searchCallField "ButtonStyleButton(".data "tooltip:".data [')', ','] line.data).map String.mk

/-- `extract_string_from_title_widget`. -/
def extract_string_from_title_widget (line : String) : Option String :=
  (searchCallField "Title(".data "title:".data [')', ','] line.data).map String.mk

/-- `extract_string_from_widgets_app`. -/
def extract_string_from_widgets_app (line : String) : Option String :=
  (searchCallField "WidgetsApp(".data "title:".data [')', ','] line.data).map String.mk

/-- `extract_string_from_text_span`: `text:` then `semanticsLabel:`. -/
def extract_string_from_text_span (line : String) : Option String :=
  match searchCallField "TextSpan(".data "text:".data [')', ','] line.data with
  | some r => some (String.mk r)
  | none =>
      (searchCallField "TextSpan(".data "semanticsLabel:".data [')', ','] line.data).map String.mk

/-- Regex `prop\s*:\s*(["\x27])(.*?)\1\s*[,\]\)]` tried at the head. -/
def tryProp (prop : List Char) (l : List Char) : Option (List Char) :=
  match matchLit prop l with
  | none => none
  | some r1 =>
      match skipWS r1 with
      | ':' :: r2 =>
          (match skipWS r2 with
           | q :: r3 => if isQuote q then lazyCloseQ q (some [',', ']', ')']) r3 else none
           | [] => none)
      | _ => none

def searchProp (prop : List Char) : List Char → Option (List Char)
  | [] => none
  | c :: cs =>
      match tryProp prop (c :: cs) with
      | some r => some r
      | none => searchProp prop cs

/-- Python `str.rstrip(':')`. -/
def rstripColon (s : String) : String :=
  String.mk ((s.data.reverse.dropWhile (· = ':')).reverse)

/-- `extract_string_from_property`. -/
def extract_string_from_property (line : String) (prop : String) : Option String :=
  (searchProp prop.data line.data).map String.mk

/-! ### Multi-line extraction -/

/-- Does a single character `t` follow after `\s*`? -/
def termFollowsOne (t : Char) (cs : List Char) : Bool :=
  match skipWS cs with
  | d :: _ => d = t
  | [] => false

/-- Lazy `(.*?)` up to the delimiter `d`, optionally requiring a trailing
`\s*term`; returns the content. -/
def lazyCloseD (d : List Char) (term : Option Char) : List Char → Option (List Char)
  | [] => none
  | c :: cs =>
      if hasPrefixCh (c :: cs) d &&
         (match term with
          | none => true
          | some t => termFollowsOne t ((c :: cs).drop d.length)) then
        some []
      else (lazyCloseD d term cs).map (c :: ·)

/-- Regex `pre\s*DELIM(.*?)DELIM(\s*term)?` tried at the head. -/
def tryMLShape (pre d : List Char) (term : Option Char) (l : List Char) : Option (List Char) :=
  match matchLit pre l with
  | none => none
  | some r1 =>
      match matchLit d (skipWS r1) with
      | none => none
      | some r2 => lazyCloseD d term r2

def searchMLShape (pre d : List Char) (term : Option Char) : List Char → Option (List Char)
  | [] => none
  | c :: cs =>
      match tryMLShape pre d term (c :: cs) with
      | some r => some r
      | none => searchMLShape pre d term cs

/-- The 13 single-line patterns of `extract_multiline_string`, in source order. -/
def mlPatternList : List (String × Option Char) :=
  [("Text(", some ')'), ("Text(", some ','),
   ("SelectableText(", some ')'), ("SelectableText(", some ','),
   ("message:", none), ("label:", none), ("hint:", none), ("heading:", none),
   ("body:", none), ("title:", none), ("yesLabel:", none), ("cancelLabel:", none),
   ("prefixText:", none)]

/-- First matching single-line pattern (content already `.strip()`-ed). -/
def tryMLPatterns (d : List Char) (l : List Char) : Option (List Char) :=
  mlPatternList.foldl
    (fun acc p =>
      match acc with
      | some r => some r
      | none => (searchMLShape p.1.data d p.2 l).map pytrimList)
    none

/-- The read-until-closing-delimiter loop of `extract_multiline_string`:
`rest` is `lines` from index `idx` on, `acc` holds collected chunks reversed. -/
def collectMLAux (d : List Char) (acc : List (List Char)) : List String → Nat → Option String × Nat
  | [], idx => (some (String.mk (pytrimList (joinNL acc.reverse))), idx)
  | l :: rest, idx =>
      if hasSubCh l.data d then
        match splitAtSub l.data d with
        | some (before, _) =>
            (some (String.mk (pytrimList (joinNL (before :: acc).reverse))), idx)
        | none => collectMLAux d (l.data :: acc) rest (idx + 1)
      else collectMLAux d (l.data :: acc) rest (idx + 1)

/-- `extract_multiline_string` from the source: `(content?, end line index)`.
`none` stands for the Python `None` returns; a returned empty string is
treated as falsy by the caller, as in Python. -/
def extract_multiline_string (lines : List String) (start : Nat) : Option String × Nat :=
  if lines.length ≤ start then (none, start)
  else
    let sl := (lines.getD start "").data
    match get_multiline_delimiter sl with
    | none => (none, start)
    | some d =>
        match tryMLPatterns d sl with
        | some content => (some (String.mk content), start)
        | none =>
            match splitAtSub sl d with
            | none => (none, start)
            | some (_, afterD) =>
                match splitAtSub afterD d with
                | some (inner, _) => (some (String.mk (pytrimList inner)), start)
                | none => collectMLAux d [afterD] (lines.drop (start + 1)) (start + 1)

/-! ### The scan `find_user_facing_strings` -/

structure StringLocation where
  string : String
  line_number : Nat
  string_type : StringType
  context : String
  key_name : String
  is_multiline : Bool
  end_line_number : Option Nat
  deriving DecidableEq, Repr

structure UnprocessedStringLocation where
  string : String
  line_number : Nat
  context : String
  reason : ExclusionReason
  is_multiline : Bool
  end_line_number : Option Nat
  deriving DecidableEq, Repr

/-- `user_facing_patterns`: the source dict literal after Python duplicate-key
collapsing (first-insertion order, last value wins). -/
def user_facing_patterns : List (String × StringType) :=
  [("label:", StringType.LABEL), ("hint:", StringType.HINT),
   ("prefixText:", StringType.PREFIX_TEXT), ("heading:", StringType.HEADING),
   ("body:", StringType.BODY), ("yesLabel:", StringType.YES_LABEL),
   ("cancelLabel:", StringType.CANCEL_LABEL), ("title:", StringType.TITLE),
   ("Text(", StringType.TEXT_WIDGET), ("SelectableText(", StringType.SELECTABLE_TEXT_WIDGET),
   ("Tooltip(", StringType.TOOLTIP_WIDGET), ("message:", StringType.LABEL),
   ("BottomNavigationBarItem(", StringType.BOTTOM_NAVIGATION_BAR_ITEM),
   ("tooltip:", StringType.TOOLTIP_WIDGET), ("PlatformMenuItem(", StringType.PLATFORM_MENU_ITEM),
   ("ContextMenuButtonItem(", StringType.CONTEXT_MENU_BUTTON_ITEM),
   ("ButtonStyleButton(", StringType.BUTTON_STYLE_BUTTON), ("Title(", StringType.TITLE_WIDGET),
   ("WidgetsApp(", StringType.WIDGETS_APP), ("TextSpan(", StringType.TEXT_SPAN),
   ("text:", StringType.TEXT_SPAN), ("semanticsLabel:", StringType.TEXT_SPAN),
   ("error:", StringType.LABEL)]

/-- The per-type dispatch of the single-line extraction branch. -/
def dispatchExtract (line : String) (pattern : String) (ty : StringType) : Option String :=
  match ty with
  | StringType.TEXT_WIDGET => extract_string_from_text_widget line
  | StringType.SELECTABLE_TEXT_WIDGET => extract_string_from_selectable_text_widget line
  | StringType.TOOLTIP_WIDGET => extract_string_from_tooltip_widget line
  | StringType.BOTTOM_NAVIGATION_BAR_ITEM => extract_string_from_bottom_navigation_bar_item line
  | StringType.PLATFORM_MENU_ITEM => extract_string_from_platform_menu_item line
  | StringType.CONTEXT_MENU_BUTTON_ITEM => extract_string_from_context_menu_button_item line
  | StringType.BUTTON_STYLE_BUTTON => extract_string_from_button_style_button line
  | StringType.TITLE_WIDGET => extract_string_from_title_widget line
  | StringType.WIDGETS_APP => extract_string_from_widgets_app line
  | StringType.TEXT_SPAN => extract_string_from_text_span line
  | _ => extract_string_from_property line (rstripColon pattern)

/-- `determine_string_type_from_context` from the source. -/
def determine_string_type_from_context (line : String) : StringType :=
  if strHasSub line "Text(" then StringType.TEXT_WIDGET
  else if strHasSub line "SelectableText(" then StringType.SELECTABLE_TEXT_WIDGET
  else if strHasSub line "Tooltip(" then StringType.TOOLTIP_WIDGET
  else if strHasSub line "BottomNavigationBarItem(" then StringType.BOTTOM_NAVIGATION_BAR_ITEM
  else if strHasSub line "PlatformMenuItem(" then StringType.PLATFORM_MENU_ITEM
  else if strHasSub line "ContextMenuButtonItem(" then StringType.CONTEXT_MENU_BUTTON_ITEM
  else if strHasSub line "ButtonStyleButton(" then StringType.BUTTON_STYLE_BUTTON
  else if strHasSub line "Title(" then StringType.TITLE_WIDGET
  else if strHasSub line "WidgetsApp(" then StringType.WIDGETS_APP
  else if strHasSub line "TextSpan(" then StringType.TEXT_SPAN
  else if strHasSub line "label:" then StringType.LABEL
  else if strHasSub line "hint:" then StringType.HINT
  else if strHasSub line "heading:" then StringType.HEADING
  else if strHasSub line "body:" then StringType.BODY
  else if strHasSub line "title:" then StringType.TITLE
  else if strHasSub line "yesLabel:" then StringType.YES_LABEL
  else if strHasSub line "cancelLabel:" then StringType.CANCEL_LABEL
  else if strHasSub line "prefixText:" then StringType.PREFIX_TEXT
  else StringType.TEXT_WIDGET

/-- `"Lines a-b"` context text of multi-line occurrences. -/
def mlContext (a b : Nat) : String :=
  "Lines " ++ natToDecimalStr a ++ "-" ++ natToDecimalStr b

/-- One pattern check of the single-line loop: on a pattern hit, extract,
classify, and append the occurrence. -/
def processOnePattern (line : String) (lineNum : Nat)
    (st : List StringLocation × List UnprocessedStringLocation) (p : String × StringType) :
    List StringLocation × List UnprocessedStringLocation :=
  if strHasSub line p.1 then
    match dispatchExtract line p.1 p.2 with
    | some es =>
        if es.isEmpty then st
        else
          match is_technical_string es with
          | some r =>
              (st.1, st.2 ++ [{ string := es, line_number := lineNum,
                                context := pytrim line, reason := r,
                                is_multiline := false, end_line_number := none }])
          | none =>
              (st.1 ++ [{ string := es, line_number := lineNum,
                          string_type := p.2, context := pytrim line,
                          key_name := generate_key_from_string es,
                          is_multiline := false, end_line_number := none }], st.2)
    | none => st
  else st

/-- The single-line pattern loop of the scan, for one line. -/
def processPatterns (line : String) (lineNum : Nat)
    (st : List StringLocation × List UnprocessedStringLocation) :
    List StringLocation × List UnprocessedStringLocation :=
  user_facing_patterns.foldl (processOnePattern line lineNum) st

/-- The accepted occurrence built by the multi-line branch of the scan. -/
def scanMLResult (lines : List String) (i : Nat) (s : String) : StringLocation :=
  { string := s, line_number := i + 1,
    string_type := determine_string_type_from_context (lines.getD i ""),
    context := mlContext (i + 1) ((extract_multiline_string lines i).2 + 1),
    key_name := generate_key_from_string s, is_multiline := true,
    end_line_number := some ((extract_multiline_string lines i).2 + 1) }

/-- The excluded occurrence built by the multi-line branch of the scan. -/
def scanMLUnprocessed (lines : List String) (i : Nat) (s : String) (r : ExclusionReason) :
    UnprocessedStringLocation :=
  { string := s, line_number := i + 1,
    context := mlContext (i + 1) ((extract_multiline_string lines i).2 + 1),
    reason := r, is_multiline := true,
    end_line_number := some ((extract_multiline_string lines i).2 + 1) }

/-- The state update of the multi-line branch of the scan. -/
def scanMLUpdate (lines : List String) (i : Nat)
    (st : List StringLocation × List UnprocessedStringLocation) :
    List StringLocation × List UnprocessedStringLocation :=
  match (extract_multiline_string lines i).1 with
  | some s =>
      if s.isEmpty then st
      else
        match is_technical_string s with
        | some r => (st.1, st.2 ++ [scanMLUnprocessed lines i s r])
        | none => (st.1 ++ [scanMLResult lines i s], st.2)
  | none => st

/-- The state update of the string-concatenation branch of the scan. -/
def scanConcatUpdate (lines : List String) (i : Nat)
    (st : List StringLocation × List UnprocessedStringLocation) :
    List StringLocation × List UnprocessedStringLocation :=
  (st.1, st.2 ++ (findQuoted (lines.getD i "").data).filterMap
    (fun m =>
      if (pytrimList m).isEmpty then none
      else some { string := String.mk m, line_number := i + 1,
                  context := pytrim (lines.getD i ""),
                  reason := ExclusionReason.STRING_CONCATENATION,
                  is_multiline := false, end_line_number := none }))

/-- The while-loop of `find_user_facing_strings` (fuel-driven; the index
strictly increases each iteration, so `lines.length + 1` fuel suffices). -/
def scanAux : Nat → List String → Nat →
    List StringLocation × List UnprocessedStringLocation →
    List StringLocation × List UnprocessedStringLocation
  | 0, _, _, st => st
  | fuel + 1, lines, i, st =>
      if lines.length ≤ i then st
      else if is_comment_line (lines.getD i "") then scanAux fuel lines (i + 1) st
      else if is_multiline_string_start (lines.getD i "") then
        scanAux fuel lines ((extract_multiline_string lines i).2 + 1) (scanMLUpdate lines i st)
      else if is_string_concatenation (lines.getD i "") then
        scanAux fuel lines (i + 1) (scanConcatUpdate lines i st)
      else scanAux fuel lines (i + 1) (processPatterns (lines.getD i "") (i + 1) st)

/-- `find_user_facing_strings` (pure core: one file given as its lines). -/
def find_user_facing_strings (lines : List String) :
    List StringLocation × List UnprocessedStringLocation :=
  scanAux (lines.length + 1) lines 0 ([], [])

/-! ### Multi-line rewrite (`replace_spanning_multiline_string`) -/

/-- The widget/property detection chain of `replace_spanning_multiline_string`:
`widget` means a closing parenthesis is appended, `prop` a comma, `neither`
nothing. -/
inductive MLAnchorKind where
  | widget
  | prop
  | neither
  deriving DecidableEq, Repr

/-- Kind of the start line, following the source's if/elif chain exactly. -/
def spanningAnchorKind (sl : String) : MLAnchorKind :=
  if strHasSub sl "Text(" then MLAnchorKind.widget
  else if strHasSub sl "SelectableText(" then MLAnchorKind.widget
  else if strHasSub sl "Tooltip(" then MLAnchorKind.widget
  else if strHasSub sl "label:" then MLAnchorKind.prop
  else if strHasSub sl "hint:" then MLAnchorKind.prop
  else if strHasSub sl "heading:" then MLAnchorKind.prop
  else if strHasSub sl "body:" then MLAnchorKind.prop
  else if strHasSub sl "title:" then MLAnchorKind.prop
  else if strHasSub sl "yesLabel:" then MLAnchorKind.prop
  else if strHasSub sl "cancelLabel:" then MLAnchorKind.prop
  else if strHasSub sl "prefixText:" then MLAnchorKind.prop
  else MLAnchorKind.neither

/-- Set the lines with index in `[lo, hi)` to the empty string. -/
def blankRange (lines : List String) (lo hi : Nat) : List String :=
  lines.mapIdx (fun i l => if lo ≤ i && i < hi then "" else l)

/-- `replace_spanning_multiline_string` from the source: returns the updated
lines and the success flag. -/
def replace_spanning_multiline_string (lines : List String) (loc : StringLocation)
    (replacement : String) (delimiter : List Char) : List String × Bool :=
  let start_line := loc.line_number - 1
  let end_line := loc.end_line_number.getD 0 - 1
  if lines.length ≤ start_line || lines.length ≤ end_line then (lines, false)
  else
    let slc := lines.getD start_line ""
    match splitAtSub slc.data delimiter with
    | none => (lines, false)
    | some (before, afterD) =>
        let kind := spanningAnchorKind slc
        match splitAtSub afterD delimiter with
        | some (_, after_end) =>
            -- the string ends on the same line
            let new_line := String.mk (before ++ replacement.data ++ after_end)
            (lines.set start_line new_line, true)
        | none =>
            let new_line :=
              match kind with
              | MLAnchorKind.widget => String.mk (before ++ replacement.data ++ [')'])
              | MLAnchorKind.prop => String.mk (before ++ replacement.data ++ [','])
              | MLAnchorKind.neither => String.mk (before ++ replacement.data)
            let lines2 := (lines.set start_line new_line)
            (blankRange lines2 (start_line + 1) (min (end_line + 1) lines2.length), true)

/-! ### The per-file rewrite loop of `replace_strings_in_files` -/

/-- Stable descending insertion by `line_number` (Python
`sort(key=line_number, reverse=True)`). -/
def insertLocDesc (x : StringLocation) : List StringLocation → List StringLocation
  | [] => [x]
  | y :: ys => if y.line_number ≤ x.line_number then x :: y :: ys else y :: insertLocDesc x ys

def sortLocsDesc (l : List StringLocation) : List StringLocation :=
  l.foldr insertLocDesc []

/-- One iteration of the per-file loop of `replace_strings_in_files`: the
line-number range check, then the per-occurrence replacement `step`
(`some newLines` = replacement made, which sets `file_modified`). -/
def replaceFoldStep (step : List String → StringLocation → Option (List String))
    (st : List String × Nat) (loc : StringLocation) : List String × Nat :=
  if loc.line_number ≤ st.1.length then
    match step st.1 loc with
    | some newLines => (newLines, st.2 + 1)
    | none => st
  else st

/-- The per-file loop of `replace_strings_in_files`, over an abstract
per-occurrence replacement `step`. Returns the final lines and the number of
successful replacements; the file is written back iff that count is positive
(`file_modified`). -/
def replaceFileLoop (step : List String → StringLocation → Option (List String))
    (lines : List String) (locs : List StringLocation) : List String × Nat :=
  (sortLocsDesc locs).foldl (replaceFoldStep step) (lines, 0)

/-- `file_modified` for one file of `replace_strings_in_files`. -/
def fileWritten (step : List String → StringLocation → Option (List String))
    (lines : List String) (locs : List StringLocation) : Bool :=
  0 < (replaceFileLoop step lines locs).2

/-! ### The TODO-comment pass (`add_todo_comments_for_unprocessed_strings`) -/

def todoMarker : String := "// TODO(translation):"

/-- The inserted comment line (single quotes around the literal, trailing
newline, as in the source f-string). -/
def todo_comment (s : String) : String :=
  "// TODO(translation): Translate this string: " ++ String.mk [sqc] ++ s ++
  String.mk [sqc] ++ "\n"

/-- Python `str.isdigit` (ASCII model). -/
def pyIsDigitStr (s : String) : Bool := !s.data.isEmpty && s.data.all isAsciiDigit

/-- Which unprocessed strings receive a TODO comment: string-concatenation or
too-short, except purely numeric too-short strings. -/
def todoEligible (u : UnprocessedStringLocation) : Bool :=
  (u.reason = ExclusionReason.STRING_CONCATENATION || u.reason = ExclusionReason.TOO_SHORT) &&
  !(u.reason = ExclusionReason.TOO_SHORT && pyIsDigitStr u.string)

/-- Python `list.insert(n, x)` (append when `n` exceeds the length). -/
def insertAt (x : String) : List String → Nat → List String
  | l, 0 => x :: l
  | [], _ + 1 => [x]
  | c :: cs, n + 1 => c :: insertAt x cs n

/-- The "TODO already exists" guard: the line above `idx` (stripped) starts
with the TODO marker. -/
def todoGuard (lines : List String) (idx : Nat) : Bool :=
  decide (0 < idx) && hasPrefixCh (pytrimList (lines.getD (idx - 1) "").data) todoMarker.data

/-- Guarded insertion of one TODO comment (the loop body of the pass). -/
def insertTodoAt (lines : List String) (u : UnprocessedStringLocation) : List String :=
  let idx := u.line_number - 1
  if idx < lines.length then
    if todoGuard lines idx then lines
    else insertAt (todo_comment u.string) lines idx
  else lines

def insertUnpDesc (x : UnprocessedStringLocation) :
    List UnprocessedStringLocation → List UnprocessedStringLocation
  | [] => [x]
  | y :: ys => if y.line_number ≤ x.line_number then x :: y :: ys else y :: insertUnpDesc x ys

def sortUnpDesc (l : List UnprocessedStringLocation) : List UnprocessedStringLocation :=
  l.foldr insertUnpDesc []

/-- The per-file body of `add_todo_comments_for_unprocessed_strings`:
filter to the eligible strings, sort by line number descending, and insert
a guarded TODO comment before each. -/
def add_todo_comments (lines : List String) (us : List UnprocessedStringLocation) :
    List String :=
  (sortUnpDesc (us.filter todoEligible)).foldl insertTodoAt lines

/-! ### ARB key assignment (`add_strings_to_arb`) -/

/-- The candidate sequence tried by the collision loop: the base key, then
`base_1`, `base_2`, … -/
def candKey (base : List Char) (n : Nat) : List Char :=
  if n = 0 then base else base ++ '_' :: natToDecimal n

/-- The `while key in arb_data` loop: first candidate index not in `S`
(the fuel `S.length + 1` always suffices, by the pigeonhole lemma below). -/
def firstAvailAux (base : List Char) (S : List (List Char)) : Nat → Nat → Nat
  | n, 0 => n
  | n, fuel + 1 => if S.contains (candKey base n) then firstAvailAux base S (n + 1) fuel else n

def uniquifyKey (base : List Char) (S : List (List Char)) : List Char :=
  candKey base (firstAvailAux base S 0 (S.length + 1))

/-- The key-assignment loop of `add_strings_to_arb`: fold over the new
strings, assigning each `generate_key_from_string` result a collision-free
key against all keys present so far (the ARB data also holds an `@key`
metadata entry per key, which is therefore added to the key set). Returns
the final key set and the assignment list in order. -/
def arbAssignAux (st : List (List Char) × List (String × List Char)) (t : String) :
    List (List Char) × List (String × List Char) :=
  let key := uniquifyKey (generate_key_from_string t).data st.1
  (key :: ('@' :: key) :: st.1, st.2 ++ [(t, key)])

def add_strings_to_arb_keys (existing : List (List Char)) (texts : List String) :
    List (String × List Char) :=
  (texts.foldl arbAssignAux (existing, [])).2

/-! ### Helper lemmas: decimal representation and the collision loop -/

theorem char_toNat_ofNat (n : Nat) (h : n < 55296) : (Char.ofNat n).toNat = n := by
  unfold Char.ofNat
  split
  · rfl
  · exact absurd (Or.inl h) (by assumption)

/-- Little-endian decimal valuation, inverse of `decDigitsLE`. -/
def valLE : List Char → Nat
  | [] => 0
  | c :: cs => (c.toNat - 48) + 10 * valLE cs

theorem decDigitsLE_val : ∀ fuel n, n ≤ fuel → valLE (decDigitsLE fuel n) = n := by
  intro fuel
  induction fuel with
  | zero => intro n h; interval_cases n; rfl
  | succ f ih =>
    intro n h
    unfold decDigitsLE
    by_cases h10 : n < 10
    · simp only [h10, if_true, valLE, char_toNat_ofNat (48 + n) (by omega)]
      omega
    · simp only [h10, if_false, valLE]
      rw [char_toNat_ofNat (48 + n % 10) (by omega), ih (n / 10) (by omega)]
      omega

theorem natToDecimal_inj {m n : Nat} (h : natToDecimal m = natToDecimal n) : m = n := by
  unfold natToDecimal at h
  rw [List.reverse_inj] at h
  have hm := decDigitsLE_val (m + 1) m (by omega)
  have hn := decDigitsLE_val (n + 1) n (by omega)
  rw [h, hn] at hm
  omega

theorem candKey_inj (base : List Char) : Function.Injective (candKey base) := by
  intro m n h
  unfold candKey at h
  by_cases hm : m = 0 <;> by_cases hn : n = 0
  · omega
  · rw [if_pos hm, if_neg hn] at h
    have := congrArg List.length h
    simp at this
  · rw [if_neg hm, if_pos hn] at h
    have := congrArg List.length h
    simp at this
  · rw [if_neg hm, if_neg hn] at h
    have h2 := List.append_cancel_left h
    exact natToDecimal_inj (List.cons.injEq .. ▸ congrArg id h2 |> And.right)

theorem exists_cand_avail (base : List Char) (S : List (List Char)) :
    ∃ n, n ≤ S.length ∧ candKey base n ∉ S := by
  by_contra hcon
  push_neg at hcon
  have h1 : (Finset.image (fun i : Fin (S.length + 1) => candKey base i.val) Finset.univ).card
      = S.length + 1 := by
    rw [Finset.card_image_of_injective _ (fun a b hab => Fin.ext (candKey_inj base hab))]
    simp
  have h2 : (Finset.image (fun i : Fin (S.length + 1) => candKey base i.val) Finset.univ)
      ⊆ S.toFinset := by
    intro x hx
    rw [Finset.mem_image] at hx
    obtain ⟨i, _, hi⟩ := hx
    rw [List.mem_toFinset, ← hi]
    exact hcon i.val (by omega)
  have h3 := Finset.card_le_card h2
  have h4 := List.toFinset_card_le S
  omega

theorem list_contains_iff {S : List (List Char)} {x : List Char} :
    S.contains x = true ↔ x ∈ S := by
  simp [List.contains, List.elem_iff]

theorem firstAvailAux_succ (base : List Char) (S : List (List Char)) (n f : Nat) :
    firstAvailAux base S n (f + 1) =
      if S.contains (candKey base n) then firstAvailAux base S (n + 1) f else n := rfl

theorem firstAvailAux_spec (base : List Char) (S : List (List Char)) :
    ∀ fuel start, (∃ k, start ≤ k ∧ k < start + fuel ∧ candKey base k ∉ S) →
      candKey base (firstAvailAux base S start fuel) ∉ S ∧
      start ≤ firstAvailAux base S start fuel ∧
      ∀ m, start ≤ m → m < firstAvailAux base S start fuel → candKey base m ∈ S := by
  intro fuel
  induction fuel with
  | zero =>
    intro start ⟨k, h1, h2, _⟩
    omega
  | succ f ih =>
    intro start ⟨k, h1, h2, h3⟩
    cases hc : S.contains (candKey base start) with
    | true =>
      have hcm : candKey base start ∈ S := list_contains_iff.mp hc
      have hrw : firstAvailAux base S start (f + 1) = firstAvailAux base S (start + 1) f := by
        rw [firstAvailAux_succ]
        simp [hcm]
      rw [hrw]
      have hks : k ≠ start := by
        intro he
        exact h3 (he ▸ hcm)
      have hr := ih (start + 1) ⟨k, by omega, by omega, h3⟩
      refine ⟨hr.1, by omega, fun m hm1 hm2 => ?_⟩
      by_cases hmeq : m = start
      · exact hmeq ▸ hcm
      · exact hr.2.2 m (by omega) hm2
    | false =>
      have hcm : candKey base start ∉ S := by
        intro hx
        rw [list_contains_iff.mpr hx] at hc
        cases hc
      have hrw : firstAvailAux base S start (f + 1) = start := by
        rw [firstAvailAux_succ]
        simp [hcm]
      rw [hrw]
      exact ⟨hcm, Nat.le_refl _, fun m hm1 hm2 => by omega⟩

theorem uniquifyKey_spec (base : List Char) (S : List (List Char)) :
    uniquifyKey base S ∉ S ∧
    (uniquifyKey base S = base ∨
      (base ∈ S ∧ ∃ n, 0 < n ∧ uniquifyKey base S = candKey base n ∧
        ∀ m, 0 < m → m < n → candKey base m ∈ S)) := by
  obtain ⟨k, hk1, hk2⟩ := exists_cand_avail base S
  have hs := firstAvailAux_spec base S (S.length + 1) 0 ⟨k, by omega, by omega, hk2⟩
  refine ⟨hs.1, ?_⟩
  by_cases hr : firstAvailAux base S 0 (S.length + 1) = 0
  · left
    unfold uniquifyKey
    rw [hr]
    simp [candKey]
  · right
    refine ⟨?_, firstAvailAux base S 0 (S.length + 1), by omega, rfl, fun m h1 h2 => ?_⟩
    · have := hs.2.2 0 (by omega) (by omega)
      simpa [candKey] using this
    · exact hs.2.2 m (by omega) h2

theorem arbAssignAux_pair (S : List (List Char)) (acc : List (String × List Char)) (t : String) :
    arbAssignAux (S, acc) t =
      (uniquifyKey (generate_key_from_string t).data S ::
         ('@' :: uniquifyKey (generate_key_from_string t).data S) :: S,
       acc ++ [(t, uniquifyKey (generate_key_from_string t).data S)]) := rfl

theorem arbAssign_acc (texts : List String) : ∀ S acc,
    texts.foldl arbAssignAux (S, acc) =
      ((texts.foldl arbAssignAux (S, [])).1, acc ++ (texts.foldl arbAssignAux (S, [])).2) := by
  induction texts with
  | nil => simp
  | cons t ts ih =>
    intro S acc
    have h1 := ih (uniquifyKey (generate_key_from_string t).data S ::
        ('@' :: uniquifyKey (generate_key_from_string t).data S) :: S)
      (acc ++ [(t, uniquifyKey (generate_key_from_string t).data S)])
    have h2 := ih (uniquifyKey (generate_key_from_string t).data S ::
        ('@' :: uniquifyKey (generate_key_from_string t).data S) :: S)
      [(t, uniquifyKey (generate_key_from_string t).data S)]
    simp only [List.foldl_cons, arbAssignAux_pair, List.nil_append]
    rw [h1, h2]
    simp

theorem arb_fold_props : ∀ (texts : List String) (S : List (List Char)),
    (((texts.foldl arbAssignAux (S, [])).2.map Prod.snd).Pairwise (· ≠ ·)) ∧
    (∀ k ∈ (texts.foldl arbAssignAux (S, [])).2.map Prod.snd, k ∉ S) := by
  intro texts
  induction texts with
  | nil => simp
  | cons t ts ih =>
    intro S
    simp only [List.foldl_cons, arbAssignAux_pair, List.nil_append]
    set key := uniquifyKey (generate_key_from_string t).data S with hkey
    set S2 := key :: ('@' :: key) :: S with hS2
    rw [arbAssign_acc ts S2 [(t, key)]]
    obtain ⟨hpw, hnm⟩ := ih S2
    have hkeyS : key ∉ S := (uniquifyKey_spec (generate_key_from_string t).data S).1
    constructor
    · simp only [List.map_append, List.map_cons, List.map_nil, List.singleton_append]
      rw [List.pairwise_cons]
      refine ⟨fun k' hk' hek => ?_, hpw⟩
      exact hnm k' hk' (hek ▸ (by rw [hS2]; exact List.mem_cons_self _ _))
    · intro k hk
      simp only [List.map_append, List.map_cons, List.map_nil, List.singleton_append] at hk
      rcases List.mem_cons.mp hk with he | hmem
      · exact he ▸ hkeyS
      · intro hkS
        exact hnm k hmem (by rw [hS2]; exact List.mem_cons_of_mem _ (List.mem_cons_of_mem _ hkS))

theorem digit_not_alpha {c : Char} (h : isAsciiDigit c = true) : isAsciiAlpha c = false := by
  simp [isAsciiDigit, isAsciiAlpha, isAsciiLower, isAsciiUpper] at *
  omega

/-! ### Claim theorems -/

set_option maxRecDepth 100000

/-- C1 (counterexample): two distinct literal texts, both accepted by the
classifier in one scan, are assigned the same occurrence key `key_name`
(`find_user_facing_strings` mints keys with `generate_key_from_string`
alone, without the catalog collision suffixing), so "for every pair of
distinct literal texts accepted in one run, the keys assigned to them
differ" fails as stated. -/
theorem c1_occurrence_key_collision :
    ("Welcome back" : String) ≠ "Welcome, back" ∧
    is_technical_string "Welcome back" = none ∧
    is_technical_string "Welcome, back" = none ∧
    (find_user_facing_strings ["Text(\"Welcome back\")", "Text(\"Welcome, back\")"]).1.map
        (fun r => (r.string, r.key_name)) =
      [("Welcome back", "welcome_back"), ("Welcome, back", "welcome_back")] := by
  decide

/-- C1 (amended): at ARB insertion (`add_strings_to_arb`) the assigned keys
are pairwise distinct and disjoint from the pre-existing keys, and a base-key
collision is resolved by the first available integer suffix `_1`, `_2`, …;
but the key recorded on the occurrence itself is the unsuffixed base key
(see the counterexample). -/
theorem c1_catalog_keys_unique :
    (∀ (existing : List (List Char)) (texts : List String),
        ((add_strings_to_arb_keys existing texts).map Prod.snd).Pairwise (· ≠ ·) ∧
        ∀ k ∈ (add_strings_to_arb_keys existing texts).map Prod.snd, k ∉ existing) ∧
    (∀ (base : List Char) (S : List (List Char)),
        uniquifyKey base S ∉ S ∧
        (uniquifyKey base S = base ∨
          (base ∈ S ∧ ∃ n, 0 < n ∧ uniquifyKey base S = candKey base n ∧
            ∀ m, 0 < m → m < n → candKey base m ∈ S))) :=
  ⟨fun existing texts => arb_fold_props texts existing, fun base S => uniquifyKey_spec base S⟩

/-- C1 (witness): the amended theorem applied to a seeded catalog and one
colliding text. -/
theorem c1_catalog_keys_unique_witness :
    "welcome_back_1".data ∉ ["welcome_back"].map String.data :=
  (c1_catalog_keys_unique.1 (["welcome_back"].map String.data) ["Welcome, back"]).2
    "welcome_back_1".data (by decide)

/-- C2 (counterexample): the 2-character literal `ok` is excluded as a
variable name, not as too-short, and the 2-character literal `a!` is not
excluded at all — there is no general "length < 3" rule in
`is_technical_string`. -/
theorem c2_too_short_scenario_cex :
    is_technical_string "ok" = some ExclusionReason.VARIABLE_NAME ∧
    some ExclusionReason.VARIABLE_NAME ≠ some ExclusionReason.TOO_SHORT ∧
    is_technical_string "a!" = none := by
  decide

/-- C2 (amended): only a single alphabetic character or a nonempty purely
numeric literal is classified too-short; the literal `ok` from the scenario
is excluded as a variable name (identifier-shaped), so no key is minted
for it, but its reason is not too-short. -/
theorem c2_too_short_amended :
    (∀ s : String, (∃ c, s.data = [c] ∧ isAsciiAlpha c = true) →
        is_technical_string s = some ExclusionReason.TOO_SHORT) ∧
    (∀ s : String, s.data ≠ [] → (∀ c ∈ s.data, isAsciiDigit c = true) →
        is_technical_string s = some ExclusionReason.TOO_SHORT) ∧
    is_technical_string "ok" = some ExclusionReason.VARIABLE_NAME := by
  refine ⟨fun s ⟨c, hd, hc⟩ => ?_, fun s hne hall => ?_, by decide⟩
  · simp [is_technical_string, hd, hc]
  · have hcond1 : (s.data.length = 1 && s.data.all isAsciiAlpha) = false := by
      cases hd : s.data with
      | nil => simp [hd] at hne
      | cons c cs =>
        cases cs with
        | nil =>
          have hdig := hall c (by simp [hd])
          simp [digit_not_alpha hdig]
        | cons d ds => simp
    have hcond2 : (!s.data.isEmpty && s.data.all isAsciiDigit) = true := by
      rcases hd : s.data with _ | ⟨c, cs⟩
      · exact absurd hd hne
      · simp only [List.isEmpty_cons, Bool.not_false, Bool.true_and, List.all_eq_true]
        intro x hx
        exact hall x (hd ▸ hx)
    simp only [is_technical_string, hcond1, hcond2]
    simp

/-- C2 (witness): the amended rules applied at the single letter `A` and the
numeral `42`. -/
theorem c2_too_short_amended_witness :
    is_technical_string "A" = some ExclusionReason.TOO_SHORT ∧
    is_technical_string "42" = some ExclusionReason.TOO_SHORT :=
  ⟨c2_too_short_amended.1 "A" ⟨'A', rfl, by decide⟩,
   c2_too_short_amended.2.1 "42" (by decide) (by decide)⟩

/-- C4 (code bug): `convert_dart_interpolation_to_arb` does not convert the
native Dart marker `$\x7bvariable\x7d` to `\x7bvariable\x7d` (its first regex
demands quotes around the variable), and its last pass doubles the closing
brace, so the stored text `Hello $\x7bname\x7d\x7d` is neither converted nor
well-formed placeholder syntax. -/
theorem c4_interpolation_not_converted :
    convert_dart_interpolation_to_arb "Hello $\x7bname\x7d" = "Hello $\x7bname\x7d\x7d" ∧
    convert_dart_interpolation_to_arb "Hello $\x7bname\x7d" ≠ "Hello \x7bname\x7d" ∧
    convert_dart_interpolation_to_arb "Hello $\x7b\x27name\x27\x7d" = "Hello \x7bname\x7d\x7d" := by
  decide

theorem collectMLAux_cons_eq (d : List Char) (acc : List (List Char)) (l : String)
    (rest : List String) (idx : Nat) :
    collectMLAux d acc (l :: rest) idx =
      if hasSubCh l.data d then
        match splitAtSub l.data d with
        | some (before, _) =>
            (some (String.mk (pytrimList (joinNL (before :: acc).reverse))), idx)
        | none => collectMLAux d (l.data :: acc) rest (idx + 1)
      else collectMLAux d (l.data :: acc) rest (idx + 1) := rfl

theorem collectMLAux_no_close (d : List Char) :
    ∀ (rest : List String) (idx : Nat) (acc : List (List Char)),
      (∀ l ∈ rest, hasSubCh l.data d = false) →
      collectMLAux d acc rest idx =
        (some (String.mk (pytrimList (joinNL (acc.reverse ++ rest.map String.data)))),
         idx + rest.length) := by
  intro rest
  induction rest with
  | nil =>
    intro idx acc _
    simp [collectMLAux]
  | cons l rest ih =>
    intro idx acc hno
    have hl := hno l (List.mem_cons_self _ _)
    rw [collectMLAux_cons_eq]
    simp only [hl, Bool.false_eq_true, if_false]
    rw [ih (idx + 1) (l.data :: acc) (fun x hx => hno x (List.mem_cons_of_mem _ hx))]
    simp only [List.reverse_cons, List.map_cons, List.length_cons]
    rw [List.append_assoc]
    simp only [List.singleton_append]
    refine congrArg₂ Prod.mk rfl (by omega)

/-- C3 (counterexample): a triple-quoted literal whose terminating delimiter
never appears before end of file is NOT a failed extraction: the extractor
returns the remaining content joined by newlines, and the scan accepts it as
an occurrence (here with the out-of-range line range `Lines 1-3` in a 2-line
file). -/
theorem c3_unterminated_returns_content :
    extract_multiline_string ["Text(\"\"\"abc", "def"] 0 = (some "abc\ndef", 2) ∧
    (find_user_facing_strings ["Text(\"\"\"abc", "def"]).1 =
      [{ string := "abc\ndef", line_number := 1, string_type := StringType.TEXT_WIDGET,
         context := "Lines 1-3", key_name := "abc_def", is_multiline := true,
         end_line_number := some 3 }] := by
  decide

/-- C3 (amended): when the opening delimiter is found but no terminating
delimiter exists before end of file, `extract_multiline_string` returns the
content from after the opening delimiter through the last line, joined with
newlines and stripped, together with the end index `lines.length` (one past
the last line); it does not fail for that literal. -/
theorem c3_eof_returns_joined_content (lines : List String) (start : Nat)
    (d before afterD : List Char)
    (h1 : start < lines.length)
    (h2 : get_multiline_delimiter (lines.getD start "").data = some d)
    (h3 : tryMLPatterns d (lines.getD start "").data = none)
    (h4 : splitAtSub (lines.getD start "").data d = some (before, afterD))
    (h5 : splitAtSub afterD d = none)
    (h6 : ∀ l ∈ lines.drop (start + 1), hasSubCh l.data d = false) :
    extract_multiline_string lines start =
      (some (String.mk (pytrimList (joinNL (afterD :: (lines.drop (start + 1)).map String.data)))),
       lines.length) := by
  unfold extract_multiline_string
  rw [if_neg (by omega)]
  simp only [h2, h3, h4, h5]
  rw [collectMLAux_no_close d _ _ _ h6]
  have hlen : start + 1 + (lines.drop (start + 1)).length = lines.length := by
    rw [List.length_drop]
    omega
  rw [hlen]
  simp

/-- C3 (witness): the amended statement at the concrete unterminated file. -/
theorem c3_eof_returns_joined_content_witness :
    extract_multiline_string ["Text(\"\"\"abc", "def"] 0 =
      (some (String.mk (pytrimList (joinNL ("abc".data ::
          ((["Text(\"\"\"abc", "def"] : List String).drop 1).map String.data)))),
       (["Text(\"\"\"abc", "def"] : List String).length) :=
  c3_eof_returns_joined_content _ 0 tripleDQ "Text(".data "abc".data
    (by decide) (by decide) (by decide) (by decide) (by decide) (by decide)

theorem getD_set_ne (l : List String) (n i : Nat) (x : String) (h : n ≠ i) :
    (l.set n x).getD i "" = l.getD i "" := by
  rw [List.getD_eq_getElem?_getD, List.getElem?_set, if_neg h, ← List.getD_eq_getElem?_getD]

theorem getD_set_self (l : List String) (n : Nat) (x : String) (h : n < l.length) :
    (l.set n x).getD n "" = x := by
  rw [List.getD_eq_getElem?_getD, List.getElem?_set, if_pos rfl, if_pos h]
  rfl

theorem blankRange_getD (lines : List String) (lo hi i : Nat) :
    (blankRange lines lo hi).getD i "" =
      if lo ≤ i ∧ i < hi ∧ i < lines.length then "" else lines.getD i "" := by
  unfold blankRange
  by_cases h : i < lines.length
  · have hsome : lines[i]? = some lines[i] := List.getElem?_eq_getElem h
    rw [List.getD_eq_getElem?_getD, List.getElem?_mapIdx, hsome]
    rw [List.getD_eq_getElem?_getD (lines) i "", hsome]
    simp only [Option.map_some', Option.getD_some]
    by_cases h1 : lo ≤ i <;> by_cases h2 : i < hi <;> simp [h1, h2, h]
  · have hnone : lines[i]? = none := by
      rw [List.getElem?_eq_none_iff]
      omega
    rw [List.getD_eq_getElem?_getD, List.getElem?_mapIdx, hnone]
    rw [List.getD_eq_getElem?_getD (lines) i "", hnone]
    simp [h]

/-- C5 (counterexample): rewriting a multi-line occurrence spanning lines
1-3 blanks the terminating line ENTIRELY, including the text `),tail` after
the closing delimiter, which the claim says is preserved. -/
theorem c5_terminating_line_blanked :
    replace_spanning_multiline_string ["Text(\"\"\"Hello", "World", "\"\"\"),tail"]
        { string := "Hello\nWorld", line_number := 1, string_type := StringType.TEXT_WIDGET,
          context := "Lines 1-3", key_name := "hello_world", is_multiline := true,
          end_line_number := some 3 } "context.translations.hello_world" tripleDQ =
      (["Text(context.translations.hello_world)", "", ""], true) ∧
    ("" : String) ≠ "),tail" := by
  decide

/-- C5 (amended): for an accepted multi-line occurrence spanning start line
`s` to end line `e` (0-based) with `s < e < lines.length`, the rewrite keeps
the list length, leaves lines before `s` and after `e` unchanged, sets every
line from `s + 1` through `e` INCLUSIVE to the empty string (so the
terminating line's text after the closing delimiter is discarded, not
preserved), and replaces the start line by the text before the opening
delimiter, the replacement expression, and the anchor-kind trailing syntax. -/
theorem c5_multiline_frame (lines : List String) (loc : StringLocation) (repl : String)
    (d before afterD : List Char) (s e : Nat)
    (hs : loc.line_number = s + 1)
    (he : loc.end_line_number = some (e + 1))
    (hlt : s < e) (hend : e < lines.length)
    (h4 : splitAtSub (lines.getD s "").data d = some (before, afterD))
    (h5 : splitAtSub afterD d = none) :
    (replace_spanning_multiline_string lines loc repl d).2 = true ∧
    (replace_spanning_multiline_string lines loc repl d).1.length = lines.length ∧
    (∀ i, i < s → (replace_spanning_multiline_string lines loc repl d).1.getD i "" =
        lines.getD i "") ∧
    (∀ i, s < i → i ≤ e → (replace_spanning_multiline_string lines loc repl d).1.getD i "" = "") ∧
    (∀ i, e < i → i < lines.length →
        (replace_spanning_multiline_string lines loc repl d).1.getD i "" = lines.getD i "") ∧
    (replace_spanning_multiline_string lines loc repl d).1.getD s "" =
      String.mk (before ++ repl.data ++
        (match spanningAnchorKind (lines.getD s "") with
         | MLAnchorKind.widget => [')']
         | MLAnchorKind.prop => [',']
         | MLAnchorKind.neither => [])) := by
  have hred : replace_spanning_multiline_string lines loc repl d =
      (blankRange
        (lines.set s (match spanningAnchorKind (lines.getD s "") with
          | MLAnchorKind.widget => String.mk (before ++ repl.data ++ [')'])
          | MLAnchorKind.prop => String.mk (before ++ repl.data ++ [','])
          | MLAnchorKind.neither => String.mk (before ++ repl.data)))
        (s + 1) (e + 1), true) := by
    unfold replace_spanning_multiline_string
    simp only [hs, he, Nat.add_sub_cancel, Option.getD_some]
    rw [if_neg (by simp only [Bool.or_eq_true, decide_eq_true_eq, not_or]; omega)]
    simp only [h4, h5]
    have hmin : min (e + 1)
        (lines.set s (match spanningAnchorKind (lines.getD s "") with
          | MLAnchorKind.widget => String.mk (before ++ repl.data ++ [')'])
          | MLAnchorKind.prop => String.mk (before ++ repl.data ++ [','])
          | MLAnchorKind.neither => String.mk (before ++ repl.data))).length = e + 1 := by
      rw [List.length_set]
      omega
    rw [hmin]
  rw [hred]
  refine ⟨rfl, ?_, ?_, ?_, ?_, ?_⟩
  · simp [blankRange, List.length_set]
  · intro i hi
    rw [blankRange_getD, if_neg (by omega), getD_set_ne _ _ _ _ (by omega)]
  · intro i h1 h2
    rw [blankRange_getD, if_pos ⟨by omega, by omega, by rw [List.length_set]; omega⟩]
  · intro i h1 h2
    rw [blankRange_getD, if_neg (by omega), getD_set_ne _ _ _ _ (by omega)]
  · rw [blankRange_getD, if_neg (by omega), getD_set_self _ _ _ (by omega)]
    rcases hk : spanningAnchorKind (lines.getD s "") <;> simp [hk]

/-- C5 (witness): the amended frame at the concrete three-line literal. -/
theorem c5_multiline_frame_witness :
    (replace_spanning_multiline_string ["Text(\"\"\"Hello", "World", "\"\"\"),tail"]
        { string := "Hello\nWorld", line_number := 1, string_type := StringType.TEXT_WIDGET,
          context := "Lines 1-3", key_name := "hello_world", is_multiline := true,
          end_line_number := some 3 } "context.translations.hello_world" tripleDQ).2 = true ∧
    (replace_spanning_multiline_string ["Text(\"\"\"Hello", "World", "\"\"\"),tail"]
        { string := "Hello\nWorld", line_number := 1, string_type := StringType.TEXT_WIDGET,
          context := "Lines 1-3", key_name := "hello_world", is_multiline := true,
          end_line_number := some 3 } "context.translations.hello_world" tripleDQ).1.getD 2 "" =
      "" := by
  have h := c5_multiline_frame ["Text(\"\"\"Hello", "World", "\"\"\"),tail"]
    { string := "Hello\nWorld", line_number := 1, string_type := StringType.TEXT_WIDGET,
      context := "Lines 1-3", key_name := "hello_world", is_multiline := true,
      end_line_number := some 3 } "context.translations.hello_world" tripleDQ
    "Text(".data "Hello".data 0 2 rfl rfl (by omega) (by decide) (by decide) (by decide)
  exact ⟨h.1, h.2.2.2.1 2 (by omega) (by omega)⟩

theorem replaceFoldStep_cases (step : List String → StringLocation → Option (List String))
    (st : List String × Nat) (loc : StringLocation) :
    replaceFoldStep step st loc = st ∨
      ∃ nl, replaceFoldStep step st loc = (nl, st.2 + 1) := by
  unfold replaceFoldStep
  by_cases h : loc.line_number ≤ st.1.length
  · rw [if_pos h]
    cases hstep : step st.1 loc with
    | none => exact Or.inl rfl
    | some nl => exact Or.inr ⟨nl, rfl⟩
  · rw [if_neg h]
    exact Or.inl rfl

theorem replaceFold_mono (step : List String → StringLocation → Option (List String)) :
    ∀ (L : List StringLocation) (st : List String × Nat),
      st.2 ≤ (L.foldl (replaceFoldStep step) st).2 := by
  intro L
  induction L with
  | nil => intro st; exact Nat.le_refl _
  | cons l L ih =>
    intro st
    rw [List.foldl_cons]
    rcases replaceFoldStep_cases step st l with h | ⟨nl, h⟩
    · rw [h]; exact ih st
    · rw [h]
      have := ih (nl, st.2 + 1)
      omega

theorem replaceFold_zero (step : List String → StringLocation → Option (List String)) :
    ∀ (L : List StringLocation) (st : List String × Nat),
      (L.foldl (replaceFoldStep step) st).2 = st.2 →
      (L.foldl (replaceFoldStep step) st).1 = st.1 := by
  intro L
  induction L with
  | nil => intro st _; rfl
  | cons l L ih =>
    intro st h
    rw [List.foldl_cons] at h ⊢
    rcases replaceFoldStep_cases step st l with he | ⟨nl, he⟩
    · rw [he] at h ⊢
      exact ih st h
    · rw [he] at h
      have := replaceFold_mono step L (nl, st.2 + 1)
      omega

/-- C8: a file is written back by the rewrite step only if at least one
replacement succeeded (`file_modified`, i.e. a positive replacement count):
with zero occurrences the per-file loop returns the lines unchanged with
count 0, and whenever the written-back flag is false the returned lines
are exactly the input lines; likewise the TODO pass leaves a file with no
eligible unprocessed strings untouched. -/
theorem c8_untouched_round_trip :
    (∀ (step : List String → StringLocation → Option (List String)) (lines : List String),
        replaceFileLoop step lines [] = (lines, 0)) ∧
    (∀ (step : List String → StringLocation → Option (List String)) (lines : List String)
        (locs : List StringLocation),
        fileWritten step lines locs = false → (replaceFileLoop step lines locs).1 = lines) ∧
    (∀ (lines : List String) (us : List UnprocessedStringLocation),
        (∀ u ∈ us, todoEligible u = false) → add_todo_comments lines us = lines) := by
  refine ⟨fun step lines => rfl, fun step lines locs h => ?_, fun lines us h => ?_⟩
  · have hz : (replaceFileLoop step lines locs).2 = 0 := by
      unfold fileWritten at h
      simp only [decide_eq_false_iff_not, Nat.not_lt, Nat.le_zero] at h
      exact h
    exact replaceFold_zero step _ _ hz
  · unfold add_todo_comments
    rw [List.filter_eq_nil_iff.mpr (fun a ha => by simp [h a ha])]
    rfl

/-- C8 (witness): the untouched-file guarantee at a concrete file with one
out-of-scope occurrence and a never-matching step, and at a file whose only
unprocessed string is not TODO-eligible. -/
theorem c8_untouched_round_trip_witness :
    (replaceFileLoop (fun _ _ => none) ["keep this line"]
      [{ string := "x", line_number := 1, string_type := StringType.TEXT_WIDGET, context := "",
         key_name := "x", is_multiline := false, end_line_number := none }]).1 =
      ["keep this line"] ∧
    add_todo_comments ["keep this line"]
      [{ string := "x", line_number := 1, context := "",
         reason := ExclusionReason.TECHNICAL_PATTERN, is_multiline := false,
         end_line_number := none }] = ["keep this line"] :=
  ⟨c8_untouched_round_trip.2.1 _ _ _ (by decide),
   c8_untouched_round_trip.2.2 _ _ (by decide)⟩

theorem is_technical_ne_comment (s : String) (r : ExclusionReason)
    (h : is_technical_string s = some r) : r ≠ ExclusionReason.COMMENT_STRING := by
  intro hr
  subst hr
  unfold is_technical_string at h
  dsimp only [] at h
  split_ifs at h <;> simp_all

/-- The invariant of the C9 claim over a scan state. -/
def scanInv (lines : List String)
    (st : List StringLocation × List UnprocessedStringLocation) : Prop :=
  (∀ r ∈ st.1, is_comment_line (lines.getD (r.line_number - 1) "") = false) ∧
  (∀ u ∈ st.2, is_comment_line (lines.getD (u.line_number - 1) "") = false ∧
      u.reason ≠ ExclusionReason.COMMENT_STRING)

theorem foldl_preserve {α β : Type} (f : β → α → β) (P : β → Prop)
    (h : ∀ st a, P st → P (f st a)) : ∀ (l : List α) (st : β), P st → P (l.foldl f st) := by
  intro l
  induction l with
  | nil => intro st hst; exact hst
  | cons a l ih => intro st hst; exact ih _ (h st a hst)

theorem processOnePattern_inv (lines : List String) (line : String) (i : Nat)
    (hcm : is_comment_line (lines.getD i "") = false) :
    ∀ st p, scanInv lines st → scanInv lines (processOnePattern line (i + 1) st p) := by
  intro st p hst
  unfold processOnePattern
  split
  · split
    · split
      · exact hst
      · split
        · refine ⟨hst.1, fun u hu => ?_⟩
          rcases List.mem_append.mp hu with hold | hnew
          · exact hst.2 u hold
          · rcases List.mem_singleton.mp hnew with rfl
            refine ⟨by simpa using hcm, ?_⟩
            exact is_technical_ne_comment _ _ (by assumption)
        · refine ⟨fun r hr => ?_, hst.2⟩
          rcases List.mem_append.mp hr with hold | hnew
          · exact hst.1 r hold
          · rcases List.mem_singleton.mp hnew with rfl
            simpa using hcm
    · exact hst
  · exact hst

theorem scanMLUpdate_inv (lines : List String) (i : Nat)
    (hcm : is_comment_line (lines.getD i "") = false) (st : _)
    (hst : scanInv lines st) : scanInv lines (scanMLUpdate lines i st) := by
  unfold scanMLUpdate
  split
  · split
    · exact hst
    · split
      · refine ⟨hst.1, fun u hu => ?_⟩
        rcases List.mem_append.mp hu with hold | hnew
        · exact hst.2 u hold
        · rcases List.mem_singleton.mp hnew with rfl
          refine ⟨by simpa [scanMLUnprocessed] using hcm, ?_⟩
          simp only [scanMLUnprocessed]
          exact is_technical_ne_comment _ _ (by assumption)
      · refine ⟨fun r hr => ?_, hst.2⟩
        rcases List.mem_append.mp hr with hold | hnew
        · exact hst.1 r hold
        · rcases List.mem_singleton.mp hnew with rfl
          simpa [scanMLResult] using hcm
  · exact hst

theorem scanConcatUpdate_inv (lines : List String) (i : Nat)
    (hcm : is_comment_line (lines.getD i "") = false) (st : _)
    (hst : scanInv lines st) : scanInv lines (scanConcatUpdate lines i st) := by
  unfold scanConcatUpdate
  refine ⟨hst.1, fun u hu => ?_⟩
  rcases List.mem_append.mp hu with hold | hnew
  · exact hst.2 u hold
  · rcases List.mem_filterMap.mp hnew with ⟨m, _, hm⟩
    split at hm
    · cases hm
    · rcases Option.some.inj hm with rfl
      exact ⟨by simpa using hcm, by simp⟩

theorem scanAux_inv (lines : List String) :
    ∀ fuel i st, scanInv lines st → scanInv lines (scanAux fuel lines i st) := by
  intro fuel
  induction fuel with
  | zero => intro i st hst; exact hst
  | succ f ih =>
    intro i st hst
    unfold scanAux
    split
    · exact hst
    · split
      · exact ih _ _ hst
      · rename_i hcm'
        have hcm : is_comment_line (lines.getD i "") = false := by
          simpa using hcm'
        split
        · exact ih _ _ (scanMLUpdate_inv lines i hcm st hst)
        · split
          · exact ih _ _ (scanConcatUpdate_inv lines i hcm st hst)
          · exact ih _ _ (foldl_preserve _ _ (processOnePattern_inv lines _ i hcm) _ st hst)

/-- C9: occurrences are never attributed to comment lines — for every file,
every accepted and every excluded occurrence produced by the scan points at a
line that is not a comment line (the scan skips comment lines before any
extraction), and the `COMMENT_STRING` exclusion reason is never produced. -/
theorem c9_comments_invisible (lines : List String) :
    (∀ r ∈ (find_user_facing_strings lines).1,
        is_comment_line (lines.getD (r.line_number - 1) "") = false) ∧
    (∀ u ∈ (find_user_facing_strings lines).2,
        is_comment_line (lines.getD (u.line_number - 1) "") = false ∧
        u.reason ≠ ExclusionReason.COMMENT_STRING) :=
  scanAux_inv lines (lines.length + 1) 0 ([], [])
    ⟨fun _ h => absurd h (List.not_mem_nil _), fun _ h => absurd h (List.not_mem_nil _)⟩

/-- C9 (witness): the invariant at a concrete file, for one accepted and one
excluded occurrence. -/
theorem c9_comments_invisible_witness :
    is_comment_line ((["Text(\"Welcome back\")", "label: \"ok\","] : List String).getD (1 - 1) "")
        = false ∧
    (is_comment_line ((["Text(\"Welcome back\")", "label: \"ok\","] : List String).getD (2 - 1) "")
        = false ∧
      ExclusionReason.VARIABLE_NAME ≠ ExclusionReason.COMMENT_STRING) :=
  ⟨(c9_comments_invisible ["Text(\"Welcome back\")", "label: \"ok\","]).1
      { string := "Welcome back", line_number := 1, string_type := StringType.TEXT_WIDGET,
        context := "Text(\"Welcome back\")", key_name := "welcome_back",
        is_multiline := false, end_line_number := none } (by decide),
   (c9_comments_invisible ["Text(\"Welcome back\")", "label: \"ok\","]).2
      { string := "ok", line_number := 2, context := "label: \"ok\",",
        reason := ExclusionReason.VARIABLE_NAME, is_multiline := false,
        end_line_number := none } (by decide)⟩

/-! ### C10 helper lemmas: the TODO pass -/

/-- Whether the pass actually inserts for this occurrence: in range and the
"TODO already exists" guard does not fire. This depends only on the original
lines, since all earlier insertions of the descending pass happen at larger
indices. -/
def willInsertTodo (lines : List String) (u : UnprocessedStringLocation) : Bool :=
  decide (u.line_number - 1 < lines.length) && !todoGuard lines (u.line_number - 1)

/-- Number of insertions the pass performs at lines at or below `n`. -/
def todoShift (lines : List String) (us : List UnprocessedStringLocation) (n : Nat) : Nat :=
  (us.filter (fun v => decide (v.line_number ≤ n) && willInsertTodo lines v)).length

theorem insertTodoAt_eq (lines : List String) (u : UnprocessedStringLocation) :
    insertTodoAt lines u =
      if willInsertTodo lines u = true then
        insertAt (todo_comment u.string) lines (u.line_number - 1)
      else lines := by
  unfold insertTodoAt willInsertTodo
  by_cases h1 : u.line_number - 1 < lines.length <;>
    by_cases h2 : todoGuard lines (u.line_number - 1) = true <;>
    simp [h1, h2]

theorem insertAt_length (x : String) :
    ∀ (l : List String) (n : Nat), n ≤ l.length → (insertAt x l n).length = l.length + 1 := by
  intro l
  induction l with
  | nil =>
    intro n h
    have hz : n = 0 := by simpa using h
    subst hz
    rfl
  | cons c cs ih =>
    intro n h
    cases n with
    | zero => rfl
    | succ m =>
      show (c :: insertAt x cs m).length = _
      simp only [List.length_cons]
      rw [ih m (by simpa using h)]

theorem insertAt_getD_lt (x : String) :
    ∀ (l : List String) (n i : Nat), i < n → n ≤ l.length →
      (insertAt x l n).getD i "" = l.getD i "" := by
  intro l
  induction l with
  | nil =>
    intro n i h1 h2
    simp only [List.length_nil] at h2
    omega
  | cons c cs ih =>
    intro n i h1 h2
    cases n with
    | zero => omega
    | succ m =>
      show (c :: insertAt x cs m).getD i "" = _
      cases i with
      | zero => rfl
      | succ j =>
        show (insertAt x cs m).getD j "" = (c :: cs).getD (j + 1) ""
        rw [ih m j (by omega) (by simpa using h2)]
        rfl

theorem insertAt_getD_self (x : String) :
    ∀ (l : List String) (n : Nat), n ≤ l.length → (insertAt x l n).getD n "" = x := by
  intro l
  induction l with
  | nil =>
    intro n h
    have hz : n = 0 := by simpa using h
    subst hz
    rfl
  | cons c cs ih =>
    intro n h
    cases n with
    | zero => rfl
    | succ m =>
      show (insertAt x cs m).getD m "" = x
      exact ih m (by simpa using h)

theorem insertAt_getD_ge (x : String) :
    ∀ (l : List String) (n i : Nat), n ≤ i → n ≤ l.length →
      (insertAt x l n).getD (i + 1) "" = l.getD i "" := by
  intro l
  induction l with
  | nil =>
    intro n i h1 h2
    have hz : n = 0 := by simpa using h2
    subst hz
    show ([x] : List String).getD (i + 1) "" = _
    cases i <;> rfl
  | cons c cs ih =>
    intro n i h1 h2
    cases n with
    | zero => rfl
    | succ m =>
      cases i with
      | zero => omega
      | succ j =>
        show (insertAt x cs m).getD (j + 1) "" = (c :: cs).getD (j + 1) ""
        rw [ih m j (by omega) (by simpa using h2)]
        rfl

theorem willInsertTodo_insertAt (lines : List String) (x : String) (k : Nat)
    (v : UnprocessedStringLocation) (h1 : 1 ≤ v.line_number) (h2 : v.line_number - 1 ≤ k)
    (h3 : k ≤ lines.length) (h4 : v.line_number ≤ lines.length) :
    willInsertTodo (insertAt x lines k) v = willInsertTodo lines v := by
  unfold willInsertTodo todoGuard
  rw [insertAt_length x lines k h3]
  rw [decide_eq_true (show v.line_number - 1 < lines.length by omega),
      decide_eq_true (show v.line_number - 1 < lines.length + 1 by omega)]
  by_cases hm : 0 < v.line_number - 1
  · rw [insertAt_getD_lt x lines k (v.line_number - 1 - 1) (by omega) h3]
  · rw [decide_eq_false (show ¬(0 < v.line_number - 1) from by omega)]
    simp

theorem willInsertTodo_line_eq (lines : List String) {w u : UnprocessedStringLocation}
    (h : w.line_number = u.line_number) :
    willInsertTodo lines w = willInsertTodo lines u := by
  unfold willInsertTodo
  rw [h]

theorem hasPrefixCh_append (m : List Char) :
    ∀ (a b : List Char), hasPrefixCh a m = true → hasPrefixCh (a ++ b) m = true := by
  induction m with
  | nil => intro a b _; cases a ++ b <;> rfl
  | cons c ms ih =>
    intro a b h
    cases a with
    | nil => exact absurd h (by simp [hasPrefixCh])
    | cons d ds =>
      simp only [List.cons_append, hasPrefixCh, Bool.and_eq_true] at h ⊢
      exact ⟨h.1, ih ds b h.2⟩

theorem todo_comment_marker (s : String) :
    hasPrefixCh (pytrimList (todo_comment s).data) todoMarker.data = true := by
  have hdata : (todo_comment s).data =
      ("// TODO(translation): Translate this string: ".data ++ ([sqc] ++ (s.data ++ [sqc])))
        ++ ['\n'] := by
    unfold todo_comment
    simp [String.data_append]
  unfold pytrimList
  rw [hdata]
  rw [show ("// TODO(translation): Translate this string: ".data ++
        ([sqc] ++ (s.data ++ [sqc]))) ++ ['\n'] =
      '/' :: (("/ TODO(translation): Translate this string: ".data ++
        ([sqc] ++ (s.data ++ [sqc]))) ++ ['\n']) from rfl]
  rw [List.dropWhile_cons, if_neg (by decide)]
  rw [show '/' :: (("/ TODO(translation): Translate this string: ".data ++
        ([sqc] ++ (s.data ++ [sqc]))) ++ ['\n']) =
      ("// TODO(translation): Translate this string: ".data ++
        ([sqc] ++ (s.data ++ [sqc]))) ++ ['\n'] from rfl]
  rw [show (("// TODO(translation): Translate this string: ".data ++
        ([sqc] ++ (s.data ++ [sqc]))) ++ ['\n']).reverse =
      '\n' :: ("// TODO(translation): Translate this string: ".data ++
        ([sqc] ++ (s.data ++ [sqc]))).reverse from by simp]
  rw [List.dropWhile_cons, if_pos (by decide)]
  rw [show ("// TODO(translation): Translate this string: ".data ++
        ([sqc] ++ (s.data ++ [sqc]))).reverse =
      sqc :: ("// TODO(translation): Translate this string: ".data ++
        ([sqc] ++ s.data)).reverse from by simp]
  rw [List.dropWhile_cons, if_neg (by decide)]
  rw [show (sqc :: ("// TODO(translation): Translate this string: ".data ++
        ([sqc] ++ s.data)).reverse).reverse =
      ("// TODO(translation): Translate this string: ".data ++ ([sqc] ++ s.data)) ++ [sqc]
      from by simp]
  refine hasPrefixCh_append _ _ _ ?_
  refine hasPrefixCh_append _ _ _ ?_
  decide

theorem willInsertTodo_true_elim {lines : List String} {u : UnprocessedStringLocation}
    (h : willInsertTodo lines u = true) :
    u.line_number - 1 < lines.length ∧ todoGuard lines (u.line_number - 1) = false := by
  unfold willInsertTodo at h
  simp only [Bool.and_eq_true, decide_eq_true_eq, Bool.not_eq_true'] at h
  exact h

theorem willInsertTodo_false_elim {lines : List String} {u : UnprocessedStringLocation}
    (h : willInsertTodo lines u = false) (hrange : u.line_number - 1 < lines.length) :
    todoGuard lines (u.line_number - 1) = true := by
  unfold willInsertTodo at h
  rw [decide_eq_true hrange] at h
  simpa using h

theorem todoGuard_true_elim {lines : List String} {k : Nat} (h : todoGuard lines k = true) :
    0 < k ∧ hasPrefixCh (pytrimList (lines.getD (k - 1) "").data) todoMarker.data = true := by
  unfold todoGuard at h
  simp only [Bool.and_eq_true, decide_eq_true_eq] at h
  exact h

theorem todoPass_core :
    ∀ (us : List UnprocessedStringLocation) (lines : List String),
      us.Pairwise (fun a b => b.line_number ≤ a.line_number) →
      (∀ u ∈ us, 1 ≤ u.line_number ∧ u.line_number ≤ lines.length) →
      (us.foldl insertTodoAt lines).length =
          lines.length + (us.filter (willInsertTodo lines)).length ∧
      (∀ i, (∀ v ∈ us, willInsertTodo lines v = true → v.line_number - 1 ≤ i) →
          (us.foldl insertTodoAt lines).getD (i + (us.filter (willInsertTodo lines)).length) ""
            = lines.getD i "") ∧
      (∀ u ∈ us,
          (us.foldl insertTodoAt lines).getD
              (u.line_number - 1 + todoShift lines us u.line_number) "" =
            lines.getD (u.line_number - 1) "" ∧
          1 ≤ u.line_number - 1 + todoShift lines us u.line_number ∧
          hasPrefixCh (pytrimList ((us.foldl insertTodoAt lines).getD
              (u.line_number - 1 + todoShift lines us u.line_number - 1) "").data)
            todoMarker.data = true) := by
  intro us
  induction us with
  | nil =>
    intro lines _ _
    refine ⟨by simp, fun i _ => by simp, fun u hu => absurd hu (List.not_mem_nil u)⟩
  | cons u us' ih =>
    intro lines hpw hr
    have hhead : ∀ v ∈ us', v.line_number ≤ u.line_number := (List.pairwise_cons.mp hpw).1
    have hpw' : us'.Pairwise (fun a b => b.line_number ≤ a.line_number) :=
      (List.pairwise_cons.mp hpw).2
    have hu := hr u (List.mem_cons_self u us')
    simp only [List.foldl_cons]
    rw [insertTodoAt_eq]
    cases hwi : willInsertTodo lines u with
    | true =>
      rw [if_pos rfl]
      obtain ⟨hklen, _⟩ := willInsertTodo_true_elim hwi
      have hkle : u.line_number - 1 ≤ lines.length := by omega
      have hlen' : (insertAt (todo_comment u.string) lines (u.line_number - 1)).length =
          lines.length + 1 := insertAt_length _ lines _ hkle
      have hr' : ∀ v ∈ us', 1 ≤ v.line_number ∧ v.line_number ≤
          (insertAt (todo_comment u.string) lines (u.line_number - 1)).length := by
        intro v hv
        have := hr v (List.mem_cons_of_mem u hv)
        rw [hlen']
        omega
      obtain ⟨iha, ihd, ihc⟩ := ih (insertAt (todo_comment u.string) lines (u.line_number - 1))
        hpw' hr'
      have hwpres : ∀ v ∈ us',
          willInsertTodo (insertAt (todo_comment u.string) lines (u.line_number - 1)) v =
            willInsertTodo lines v := by
        intro v hv
        exact willInsertTodo_insertAt lines _ _ v (hr v (List.mem_cons_of_mem u hv)).1
          (by have := hhead v hv; omega) hkle (hr v (List.mem_cons_of_mem u hv)).2
      have hfilter : us'.filter
            (willInsertTodo (insertAt (todo_comment u.string) lines (u.line_number - 1))) =
          us'.filter (willInsertTodo lines) := List.filter_congr hwpres
      have hcnt : ((u :: us').filter (willInsertTodo lines)).length =
          (us'.filter (willInsertTodo lines)).length + 1 := by
        rw [List.filter_cons, if_pos hwi]
        rfl
      have hshift' : ∀ n, todoShift (insertAt (todo_comment u.string) lines (u.line_number - 1))
            us' n = todoShift lines us' n := by
        intro n
        unfold todoShift
        refine congrArg List.length (List.filter_congr fun v hv => ?_)
        rw [hwpres v hv]
      have hheadC :
          (us'.foldl insertTodoAt
              (insertAt (todo_comment u.string) lines (u.line_number - 1))).getD
              (u.line_number - 1 + todoShift lines (u :: us') u.line_number) "" =
            lines.getD (u.line_number - 1) "" ∧
          1 ≤ u.line_number - 1 + todoShift lines (u :: us') u.line_number ∧
          hasPrefixCh (pytrimList ((us'.foldl insertTodoAt
              (insertAt (todo_comment u.string) lines (u.line_number - 1))).getD
              (u.line_number - 1 + todoShift lines (u :: us') u.line_number - 1) "").data)
            todoMarker.data = true := by
        have hshead : todoShift lines (u :: us') u.line_number =
            (us'.filter (willInsertTodo lines)).length + 1 := by
          unfold todoShift
          rw [List.filter_cons, if_pos (by rw [decide_eq_true (Nat.le_refl _)]; simpa using hwi)]
          simp only [List.length_cons]
          refine congrArg (· + 1) (congrArg List.length (List.filter_congr fun w hw => ?_))
          rw [decide_eq_true (hhead w hw)]
          simp
        rw [hshead]
        have he1 : u.line_number - 1 + ((us'.filter (willInsertTodo lines)).length + 1) =
            (u.line_number - 1 + 1) + (us'.filter (willInsertTodo lines)).length := by omega
        have he2 : u.line_number - 1 + ((us'.filter (willInsertTodo lines)).length + 1) - 1 =
            (u.line_number - 1) + (us'.filter (willInsertTodo lines)).length := by omega
        refine ⟨?_, by omega, ?_⟩
        · rw [he1, ← hfilter]
          rw [ihd (u.line_number - 1 + 1)
            (fun w hw hwv => by have := hhead w hw; omega)]
          exact insertAt_getD_ge _ lines _ _ (Nat.le_refl _) hkle
        · rw [he2, ← hfilter]
          rw [ihd (u.line_number - 1)
            (fun w hw hwv => by have := hhead w hw; omega)]
          rw [insertAt_getD_self _ lines _ hkle]
          exact todo_comment_marker u.string
      refine ⟨?_, ?_, ?_⟩
      · rw [iha, hfilter, hlen', hcnt]
        omega
      · intro i hi
        have hki : u.line_number - 1 ≤ i := hi u (List.mem_cons_self u us') hwi
        rw [hcnt]
        have he : i + ((us'.filter (willInsertTodo lines)).length + 1) =
            (i + 1) + (us'.filter (willInsertTodo lines)).length := by omega
        rw [he, ← hfilter]
        rw [ihd (i + 1) (fun v hv hwv => by
          rw [hwpres v hv] at hwv
          have := hi v (List.mem_cons_of_mem u hv) hwv
          omega)]
        exact insertAt_getD_ge _ lines _ i hki hkle
      · intro v hv
        rcases List.mem_cons.mp hv with rfl | hv'
        · exact hheadC
        · by_cases htie : v.line_number = u.line_number
          · rw [htie]
            exact hheadC
          · have hc := ihc v hv'
            have hlt : v.line_number - 1 < u.line_number - 1 := by
              have h1 := hhead v hv'
              have h2 := (hr v (List.mem_cons_of_mem u hv')).1
              omega
            have hsv : todoShift lines (u :: us') v.line_number =
                todoShift lines us' v.line_number := by
              unfold todoShift
              rw [List.filter_cons, if_neg (by
                simp only [Bool.and_eq_true, decide_eq_true_eq, not_and]
                omega)]
            rw [hsv, ← hshift' v.line_number]
            refine ⟨?_, hc.2.1.trans_eq (by rw [hshift']), ?_⟩
            · rw [hc.1]
              exact insertAt_getD_lt _ lines _ _ hlt hkle
            · exact hc.2.2
    | false =>
      rw [if_neg (by simp [hwi])]
      have hr' : ∀ v ∈ us', 1 ≤ v.line_number ∧ v.line_number ≤ lines.length :=
        fun v hv => hr v (List.mem_cons_of_mem u hv)
      obtain ⟨iha, ihd, ihc⟩ := ih lines hpw' hr'
      have hcnt : ((u :: us').filter (willInsertTodo lines)).length =
          (us'.filter (willInsertTodo lines)).length := by
        rw [List.filter_cons, if_neg (by simp [hwi])]
      have hklen : u.line_number - 1 < lines.length := by omega
      have hguard := willInsertTodo_false_elim hwi hklen
      obtain ⟨hkpos, hmark⟩ := todoGuard_true_elim hguard
      have hheadC :
          (us'.foldl insertTodoAt lines).getD
              (u.line_number - 1 + todoShift lines (u :: us') u.line_number) "" =
            lines.getD (u.line_number - 1) "" ∧
          1 ≤ u.line_number - 1 + todoShift lines (u :: us') u.line_number ∧
          hasPrefixCh (pytrimList ((us'.foldl insertTodoAt lines).getD
              (u.line_number - 1 + todoShift lines (u :: us') u.line_number - 1) "").data)
            todoMarker.data = true := by
        have hshead : todoShift lines (u :: us') u.line_number =
            (us'.filter (willInsertTodo lines)).length := by
          unfold todoShift
          rw [List.filter_cons, if_neg (by
            rw [decide_eq_true (Nat.le_refl _)]
            simpa using hwi)]
          refine congrArg List.length (List.filter_congr fun w hw => ?_)
          rw [decide_eq_true (hhead w hw)]
          simp
        rw [hshead]
        have he2 : u.line_number - 1 + (us'.filter (willInsertTodo lines)).length - 1 =
            (u.line_number - 1 - 1) + (us'.filter (willInsertTodo lines)).length := by omega
        have hcond : ∀ w ∈ us', willInsertTodo lines w = true →
            w.line_number - 1 ≤ u.line_number - 1 - 1 := by
          intro w hw hwv
          by_cases hwtie : w.line_number = u.line_number
          · rw [willInsertTodo_line_eq lines hwtie, hwi] at hwv
            exact absurd hwv (by simp)
          · have h1 := hhead w hw
            omega
        refine ⟨?_, by omega, ?_⟩
        · exact ihd (u.line_number - 1) (fun w hw hwv => by have := hhead w hw; omega)
        · rw [he2, ihd (u.line_number - 1 - 1) hcond]
          exact hmark
      refine ⟨by rw [hcnt]; exact iha, ?_, ?_⟩
      · intro i hi
        rw [hcnt]
        exact ihd i (fun v hv hwv => hi v (List.mem_cons_of_mem u hv) hwv)
      · intro v hv
        rcases List.mem_cons.mp hv with rfl | hv'
        · exact hheadC
        · by_cases htie : v.line_number = u.line_number
          · rw [htie]
            exact hheadC
          · have hc := ihc v hv'
            have hsv : todoShift lines (u :: us') v.line_number =
                todoShift lines us' v.line_number := by
              unfold todoShift
              rw [List.filter_cons, if_neg (by
                have h1 := hhead v hv'
                simp only [Bool.and_eq_true, decide_eq_true_eq, not_and]
                omega)]
            rw [hsv]
            exact hc

theorem sortUnpDesc_eq_self : ∀ us : List UnprocessedStringLocation,
    us.Pairwise (fun a b => b.line_number ≤ a.line_number) → sortUnpDesc us = us := by
  intro us
  induction us with
  | nil => intro _; rfl
  | cons u us' ih =>
    intro hpw
    have h1 := (List.pairwise_cons.mp hpw).1
    have h2 := (List.pairwise_cons.mp hpw).2
    show insertUnpDesc u (sortUnpDesc us') = u :: us'
    rw [ih h2]
    cases us' with
    | nil => rfl
    | cons v rest =>
      show insertUnpDesc u (v :: rest) = _
      unfold insertUnpDesc
      rw [if_pos (by have := h1 v (List.mem_cons_self v rest); omega)]

theorem mem_insertUnpDesc (x u : UnprocessedStringLocation) :
    ∀ l, x ∈ insertUnpDesc u l ↔ x = u ∨ x ∈ l := by
  intro l
  induction l with
  | nil => simp [insertUnpDesc]
  | cons v rest ih =>
    unfold insertUnpDesc
    by_cases h : v.line_number ≤ u.line_number
    · rw [if_pos h]
      simp [List.mem_cons]
    · rw [if_neg h]
      simp only [List.mem_cons, ih]
      tauto

theorem mem_sortUnpDesc (x : UnprocessedStringLocation) :
    ∀ us, x ∈ sortUnpDesc us ↔ x ∈ us := by
  intro us
  induction us with
  | nil => simp [sortUnpDesc]
  | cons u us' ih =>
    show x ∈ insertUnpDesc u (sortUnpDesc us') ↔ _
    rw [mem_insertUnpDesc, ih]
    simp [List.mem_cons]

theorem foldl_insertTodo_guarded :
    ∀ (L : List UnprocessedStringLocation) (ls : List String),
      (∀ u ∈ L, todoGuard ls (u.line_number - 1) = true) → L.foldl insertTodoAt ls = ls := by
  intro L
  induction L with
  | nil => intro ls _; rfl
  | cons u L ih =>
    intro ls h
    have hstep : insertTodoAt ls u = ls := by
      unfold insertTodoAt
      dsimp only []
      split
      · rw [if_pos (h u (List.mem_cons_self u L))]
      · rfl
    rw [List.foldl_cons, hstep]
    exact ih ls (fun v hv => h v (List.mem_cons_of_mem u hv))

theorem todoEligible_update (u : UnprocessedStringLocation) (m : Nat) :
    todoEligible { u with line_number := m } = todoEligible u := rfl

/-- C10 (amended): the TODO pass performs one guarded insertion per eligible
occurrence (string-concatenation or non-numeric too-short), where each
occurrence's guard consults the line above its ORIGINAL index in the input
lines — so a group of same-line occurrences stacks one marker line per
occurrence instead of sharing one (see the counterexample). After one pass
every eligible occurrence still has a marker line directly above its
(shifted) position, and a second pass over the rescanned positions inserts
nothing; this holds for any weakly descending occurrence list, repeated
line numbers included. -/
theorem c10_todo_insertion_idempotent (lines : List String)
    (us : List UnprocessedStringLocation)
    (hsorted : us.Pairwise (fun a b => b.line_number ≤ a.line_number))
    (helig : ∀ u ∈ us, todoEligible u = true)
    (hrange : ∀ u ∈ us, 1 ≤ u.line_number ∧ u.line_number ≤ lines.length) :
    (∀ u ∈ us,
        (add_todo_comments lines us).getD
            (u.line_number - 1 + todoShift lines us u.line_number) "" =
          lines.getD (u.line_number - 1) "" ∧
        hasPrefixCh (pytrimList ((add_todo_comments lines us).getD
            (u.line_number - 1 + todoShift lines us u.line_number - 1) "").data)
          todoMarker.data = true) ∧
    add_todo_comments (add_todo_comments lines us)
        (us.map (fun u =>
          { u with line_number := u.line_number + todoShift lines us u.line_number })) =
      add_todo_comments lines us := by
  have hunf : add_todo_comments lines us = us.foldl insertTodoAt lines := by
    unfold add_todo_comments
    rw [List.filter_eq_self.mpr helig, sortUnpDesc_eq_self us hsorted]
  obtain ⟨ca, cd, cc⟩ := todoPass_core us lines hsorted hrange
  constructor
  · intro u hu
    rw [hunf]
    exact ⟨(cc u hu).1, (cc u hu).2.2⟩
  · unfold add_todo_comments
    have hfe : (us.map (fun u =>
          { u with line_number := u.line_number + todoShift lines us u.line_number })).filter
            todoEligible =
        us.map (fun u =>
          { u with line_number := u.line_number + todoShift lines us u.line_number }) := by
      refine List.filter_eq_self.mpr ?_
      intro v hv
      rcases List.mem_map.mp hv with ⟨u, hu, rfl⟩
      rw [todoEligible_update]
      exact helig u hu
    rw [hfe]
    refine foldl_insertTodo_guarded _ (add_todo_comments lines us) (fun v hv => ?_)
    rcases List.mem_map.mp ((mem_sortUnpDesc v _).mp hv) with ⟨u, hu, rfl⟩
    have hc := cc u hu
    show todoGuard (add_todo_comments lines us)
      (u.line_number + todoShift lines us u.line_number - 1) = true
    have hup : u.line_number + todoShift lines us u.line_number - 1 =
        u.line_number - 1 + todoShift lines us u.line_number := by
      have := (hrange u hu).1
      omega
    rw [hup]
    unfold todoGuard
    rw [decide_eq_true (show 0 < u.line_number - 1 + todoShift lines us u.line_number from
      hc.2.1)]
    rw [Bool.true_and, hunf]
    exact hc.2.2

/-- Demonstration file and occurrences for C10: a line whose string
concatenation yields two excluded fragments, both anchored at line 2. -/
def dupDemoFile : List String :=
  ["Widget build() \x7b\n", "  text: \x27Hello, \x27 + name + \x27!\x27,\n"]

def dupLoc1 : UnprocessedStringLocation :=
  { string := "Hello, ", line_number := 2,
    context := "text: \x27Hello, \x27 + name + \x27!\x27,",
    reason := ExclusionReason.STRING_CONCATENATION, is_multiline := false,
    end_line_number := none }

def dupLoc2 : UnprocessedStringLocation :=
  { string := "!", line_number := 2,
    context := "text: \x27Hello, \x27 + name + \x27!\x27,",
    reason := ExclusionReason.STRING_CONCATENATION, is_multiline := false,
    end_line_number := none }

/-- C10 (counterexample): two string-concatenation fragments excluded on the
same line (the spec scenario `\x27Hello, \x27 + name + \x27!\x27`) are both
eligible, and the pass inserts a TODO comment for EACH: the second insertion
is not skipped even though, once the first TODO is inserted, the line
immediately above the occurrence already starts with the marker — the guard
re-reads the stale original index — so two marker lines are stacked above
the one source line. -/
theorem c10_duplicate_todo_stacking :
    todoEligible dupLoc1 = true ∧ todoEligible dupLoc2 = true ∧
    dupLoc1.line_number = dupLoc2.line_number ∧
    add_todo_comments dupDemoFile [dupLoc1, dupLoc2] =
      ["Widget build() \x7b\n", todo_comment "!", todo_comment "Hello, ",
       "  text: \x27Hello, \x27 + name + \x27!\x27,\n"] ∧
    (add_todo_comments dupDemoFile [dupLoc1, dupLoc2]).length = dupDemoFile.length + 2 ∧
    hasPrefixCh (pytrimList
        ((add_todo_comments dupDemoFile [dupLoc1, dupLoc2]).getD 1 "").data)
      todoMarker.data = true ∧
    hasPrefixCh (pytrimList
        ((add_todo_comments dupDemoFile [dupLoc1, dupLoc2]).getD 2 "").data)
      todoMarker.data = true := by
  decide

/-- C10 (witness): the amended theorem at the same-line duplicate pair — the
second pass over the rescanned positions inserts nothing even though the
first pass stacked two TODO comments. -/
theorem c10_todo_insertion_idempotent_witness :
    add_todo_comments (add_todo_comments dupDemoFile [dupLoc1, dupLoc2])
        ([dupLoc1, dupLoc2].map (fun u =>
          { u with line_number := u.line_number +
              todoShift dupDemoFile [dupLoc1, dupLoc2] u.line_number })) =
      add_todo_comments dupDemoFile [dupLoc1, dupLoc2] :=
  (c10_todo_insertion_idempotent dupDemoFile [dupLoc1, dupLoc2]
    (by simp [List.pairwise_cons, dupLoc1, dupLoc2]) (by decide) (by decide)).2

/-! ### C6: long-text key derivation -/

/-- Modelled from the spec wording for the long-string branch: first 3
words, then the last word (scanning backward) longer than 2 characters and
not a stop word, joined with underscores, then an underscore and the first
6 hex characters of the MD5 of the original text. Stated separately from
the source-derived `rawKey` for the refinement comparison. -/
def specLongBaseKey (s : String) : List Char :=
  joinUnderscore ((keyWordsOf s).take 3 ++ (lastMeaningful ((keyWordsOf s).drop 3)).toList) ++
    '_' :: (md5hex s).take 6

theorem rawKey_long (s : String) (h : 8 < (keyWordsOf s).length) :
    rawKey s = specLongBaseKey s := by
  unfold rawKey specLongBaseKey
  dsimp only []
  rw [if_pos h, if_pos (by omega)]

theorem word32HexLE_length (w : Nat) : (word32HexLE w).length = 8 := by
  simp [word32HexLE, byteHex]

theorem md5hex_take6_length (s : String) : ((md5hex s).take 6).length = 6 := by
  rw [List.length_take]
  have h32 : (md5hex s).length = 32 := by
    unfold md5hex md5HexBytes
    dsimp only []
    simp [List.length_append, word32HexLE_length]
  omega

theorem kw_no_underscore : ∀ w ∈ dart_keywords, '_' ∉ w.data := by decide

theorem fixupKey_struct (A H : List Char) :
    fixupKey (A ++ '_' :: H) = "key_".data ++ (A ++ '_' :: H) ∨
    fixupKey (A ++ '_' :: H) = A ++ '_' :: H := by
  have hu1 : '_' ∈ A ++ '_' :: H :=
    List.mem_append_right A (List.mem_cons_self '_' H)
  have hkw : ∀ (P Q : List Char), '_' ∈ Q →
      (dart_keywords.any fun w => decide (w.data = P ++ Q)) = true → False := by
    intro P Q hQ hany
    rw [List.any_eq_true] at hany
    obtain ⟨w, hw, hwd⟩ := hany
    rw [decide_eq_true_eq] at hwd
    exact kw_no_underscore w hw (hwd ▸ List.mem_append_right P hQ)
  unfold fixupKey
  dsimp only []
  split_ifs <;>
    first
    | (left; rfl)
    | (right; rfl)
    | exact (hkw ['k', 'e', 'y', '_'] (A ++ '_' :: H) hu1 (by assumption)).elim
    | exact (hkw A ('_' :: H) (List.mem_cons_self '_' H) (by assumption)).elim
    | exact absurd
        (by assumption : (['k', 'e', 'y', '_'] ++ (A ++ '_' :: H)).isEmpty = true) (by simp)
    | exact absurd (by assumption : (A ++ '_' :: H).isEmpty = true) (by simp)

theorem generate_long_structure (s : String) (h : 8 < (keyWordsOf s).length) :
    ∃ X, (generate_key_from_string s).data = X ++ (md5hex s).take 6 := by
  have hraw := rawKey_long s h
  have hstru := fixupKey_struct
    (joinUnderscore ((keyWordsOf s).take 3 ++ (lastMeaningful ((keyWordsOf s).drop 3)).toList))
    ((md5hex s).take 6)
  unfold generate_key_from_string
  rw [hraw]
  rw [show specLongBaseKey s =
      joinUnderscore ((keyWordsOf s).take 3 ++
        (lastMeaningful ((keyWordsOf s).drop 3)).toList) ++
      '_' :: (md5hex s).take 6 from rfl]
  rcases hstru with he | he <;> rw [he]
  · exact ⟨"key_".data ++
      joinUnderscore ((keyWordsOf s).take 3 ++
        (lastMeaningful ((keyWordsOf s).drop 3)).toList) ++ ['_'], by simp⟩
  · exact ⟨joinUnderscore ((keyWordsOf s).take 3 ++
      (lastMeaningful ((keyWordsOf s).drop 3)).toList) ++ ['_'], by simp⟩

theorem append_right_inj_of_length {α : Type} (X1 H1 X2 H2 : List α)
    (h : X1 ++ H1 = X2 ++ H2) (hl : H1.length = H2.length) : H1 = H2 := by
  have hlen := congrArg List.length h
  simp only [List.length_append] at hlen
  have hx : X1.length = X2.length := by omega
  have hdrop := congrArg (List.drop X1.length) h
  rw [List.drop_left] at hdrop
  rw [hx, List.drop_left] at hdrop
  exact hdrop

/-- C6 (counterexample): two distinct long sentences, both accepted, sharing
their first three words and their last meaningful word, whose MD5 hashes
collide on the first 6 hex characters — they produce IDENTICAL keys, so
the content-hash suffix does not guarantee distinct keys. -/
theorem c6_hash_prefix_collision :
    ("Please confirm this action item 2401 before you continue forward done" : String) ≠
      "Please confirm this action item 4694 before you continue forward done" ∧
    8 < (keyWordsOf
      "Please confirm this action item 2401 before you continue forward done").length ∧
    8 < (keyWordsOf
      "Please confirm this action item 4694 before you continue forward done").length ∧
    (keyWordsOf "Please confirm this action item 2401 before you continue forward done").take 3 =
      (keyWordsOf "Please confirm this action item 4694 before you continue forward done").take 3 ∧
    lastMeaningful ((keyWordsOf
        "Please confirm this action item 2401 before you continue forward done").drop 3) =
      lastMeaningful ((keyWordsOf
        "Please confirm this action item 4694 before you continue forward done").drop 3) ∧
    is_technical_string
      "Please confirm this action item 2401 before you continue forward done" = none ∧
    is_technical_string
      "Please confirm this action item 4694 before you continue forward done" = none ∧
    generate_key_from_string
      "Please confirm this action item 2401 before you continue forward done" =
      "please_confirm_this_done_a16b74" ∧
    generate_key_from_string
      "Please confirm this action item 4694 before you continue forward done" =
      "please_confirm_this_done_a16b74" := by
  decide

/-- C6 (amended): for a literal with more than 8 cleaned words the derived
base key is exactly the spec's long-key form (first 3 words, optional last
meaningful word, underscore join, underscore, first 6 MD5 hex characters of
the original text); and two such literals receive distinct final keys
whenever their 6-character hash prefixes differ — but only then (see the
counterexample for a colliding pair). -/
theorem c6_long_key_derivation :
    (∀ s : String, 8 < (keyWordsOf s).length → rawKey s = specLongBaseKey s) ∧
    (∀ s t : String, 8 < (keyWordsOf s).length → 8 < (keyWordsOf t).length →
        (md5hex s).take 6 ≠ (md5hex t).take 6 →
        generate_key_from_string s ≠ generate_key_from_string t) := by
  refine ⟨rawKey_long, fun s t hs ht hh heq => ?_⟩
  obtain ⟨Xs, hXs⟩ := generate_long_structure s hs
  obtain ⟨Xt, hXt⟩ := generate_long_structure t ht
  have hdata := congrArg String.data heq
  rw [hXs, hXt] at hdata
  exact hh (append_right_inj_of_length Xs _ Xt _ hdata
    (by rw [md5hex_take6_length, md5hex_take6_length]))

/-- C6 (witness): the amended derivation at a concrete 10-word literal and a
concrete pair with distinct hash prefixes. -/
theorem c6_long_key_derivation_witness :
    rawKey "Please confirm this action before continuing with it right now" =
      specLongBaseKey "Please confirm this action before continuing with it right now" ∧
    generate_key_from_string
        "Please confirm this action before continuing with it right now" ≠
      generate_key_from_string
        "Please confirm this action before proceeding onward right now friend" :=
  ⟨c6_long_key_derivation.1 _ (by decide),
   c6_long_key_derivation.2 _ _ (by decide) (by decide) (by decide)⟩

/-! ### C7: key validity -/

/-- A character allowed in a generated key: lowercase letter, digit or underscore. -/
def validKeyChar (c : Char) : Bool := isAsciiLower c || isAsciiDigit c || c = '\x5f'

theorem splitWSAux_nil_eq (acc : List Char) :
    splitWSAux [] acc = if acc.isEmpty then [] else [acc.reverse] := rfl

theorem splitWSAux_cons_eq (d : Char) (ds acc : List Char) :
    splitWSAux (d :: ds) acc =
      if isPyWS d then
        (if acc.isEmpty then splitWSAux ds [] else acc.reverse :: splitWSAux ds [])
      else splitWSAux ds (d :: acc) := rfl

theorem splitWSAux_sound (Q : Char → Prop) :
    ∀ (cs acc : List Char), (∀ c ∈ cs, isPyWS c = true ∨ Q c) → (∀ c ∈ acc, Q c) →
      ∀ w ∈ splitWSAux cs acc, ∀ c ∈ w, Q c := by
  intro cs
  induction cs with
  | nil =>
      intro acc hcs hacc w hw c hc
      rw [splitWSAux_nil_eq] at hw
      split at hw
      · simp at hw
      · rw [List.mem_singleton] at hw
        subst hw
        exact hacc c (List.mem_reverse.mp hc)
  | cons d ds ih =>
      intro acc hcs hacc w hw c hc
      rw [splitWSAux_cons_eq] at hw
      by_cases hd : isPyWS d = true
      · rw [if_pos hd] at hw
        split at hw
        · exact ih [] (fun x hx => hcs x (List.mem_cons_of_mem d hx)) (by simp) w hw c hc
        · rcases List.mem_cons.mp hw with he | hw2
          · subst he
            exact hacc c (List.mem_reverse.mp hc)
          · exact ih [] (fun x hx => hcs x (List.mem_cons_of_mem d hx)) (by simp) w hw2 c hc
      · rw [if_neg hd] at hw
        have hQd : Q d := (hcs d (List.mem_cons_self d ds)).resolve_left hd
        refine ih (d :: acc) (fun x hx => hcs x (List.mem_cons_of_mem d hx)) ?_ w hw c hc
        intro x hx
        rcases List.mem_cons.mp hx with he | hx2
        · exact he ▸ hQd
        · exact hacc x hx2

theorem keyWords_chars (s : String) :
    ∀ w ∈ keyWordsOf s, ∀ c ∈ w, (isAsciiLower c || isAsciiDigit c) = true := by
  unfold keyWordsOf splitWS
  apply splitWSAux_sound
  · intro c hc
    unfold lowerStr at hc
    rw [List.mem_map] at hc
    obtain ⟨c0, hc0, hlc⟩ := hc
    rw [List.mem_filter] at hc0
    obtain ⟨-, hkeep⟩ := hc0
    subst hlc
    unfold keepCleanChar at hkeep
    rw [Bool.or_eq_true] at hkeep
    rcases hkeep with halnum | hws
    · right
      unfold lowerChar
      by_cases hu : isAsciiUpper c0 = true
      · rw [if_pos hu]
        simp only [isAsciiUpper, Bool.and_eq_true, decide_eq_true_eq] at hu
        have ht := char_toNat_ofNat (c0.toNat + 32) (by omega)
        simp only [isAsciiLower, isAsciiDigit, ht, Bool.or_eq_true, Bool.and_eq_true,
          decide_eq_true_eq]
        omega
      · rw [if_neg hu]
        simp only [isAsciiAlnum, isAsciiAlpha, isAsciiLower, isAsciiUpper, isAsciiDigit,
          Bool.or_eq_true, Bool.and_eq_true, decide_eq_true_eq] at halnum hu ⊢
        omega
    · left
      have hne : isAsciiUpper c0 = false := by
        rcases (by simpa [isPyWS] using hws :
            ((((c0 = ' ' ∨ c0 = '\t') ∨ c0 = '\n') ∨ c0 = '\x0d') ∨ c0 = '\x0b') ∨
              c0 = '\x0c') with
          ((((h | h) | h) | h) | h) | h <;> subst h <;> decide
      unfold lowerChar
      rw [if_neg (by simp [hne])]
      exact hws
  · intro c hc
    exact absurd hc (by simp)

theorem keyWords_valid (s : String) :
    ∀ w ∈ keyWordsOf s, ∀ c ∈ w, validKeyChar c = true := by
  intro w hw c hc
  have h := keyWords_chars s w hw c hc
  simp only [validKeyChar, Bool.or_eq_true] at h ⊢
  tauto

theorem joinSep_chars (Q : Char → Prop) (sep : List Char) (hsep : ∀ c ∈ sep, Q c) :
    ∀ ws : List (List Char), (∀ w ∈ ws, ∀ c ∈ w, Q c) → ∀ c ∈ joinSep sep ws, Q c := by
  intro ws
  induction ws with
  | nil =>
      intro _ c hc
      simp [joinSep] at hc
  | cons w ws ih =>
      intro hws c hc
      cases ws with
      | nil => exact hws w (by simp) c (by simpa [joinSep] using hc)
      | cons w2 ws2 =>
          rw [show joinSep sep (w :: w2 :: ws2) = w ++ sep ++ joinSep sep (w2 :: ws2)
            from rfl] at hc
          rcases List.mem_append.mp hc with h1 | h2
          · rcases List.mem_append.mp h1 with ha | hb
            · exact hws w (by simp) c ha
            · exact hsep c hb
          · exact ih (fun x hx => hws x (List.mem_cons_of_mem w hx)) c h2

theorem keyWords_sub_valid (s : String) (ws : List (List Char))
    (hsub : ∀ w ∈ ws, w ∈ keyWordsOf s) : ∀ c ∈ joinUnderscore ws, validKeyChar c = true :=
  joinSep_chars _ ['_'] (by decide) ws (fun w hw => keyWords_valid s w (hsub w hw))

theorem hexDigitChar_valid (n : Nat) (h : n < 16) :
    (isAsciiLower (hexDigitChar n) || isAsciiDigit (hexDigitChar n)) = true := by
  unfold hexDigitChar
  split
  · have ht := char_toNat_ofNat (48 + n) (by omega)
    simp only [isAsciiLower, isAsciiDigit, ht, Bool.or_eq_true, Bool.and_eq_true,
      decide_eq_true_eq]
    omega
  · have ht := char_toNat_ofNat (87 + n) (by omega)
    simp only [isAsciiLower, isAsciiDigit, ht, Bool.or_eq_true, Bool.and_eq_true,
      decide_eq_true_eq]
    omega

theorem byteHex_valid (b : Nat) (hb : b < 256) :
    ∀ c ∈ byteHex b, (isAsciiLower c || isAsciiDigit c) = true := by
  intro c hc
  rcases (by simpa [byteHex] using hc : c = hexDigitChar (b / 16) ∨ c = hexDigitChar (b % 16))
    with h | h <;> subst h
  · exact hexDigitChar_valid _ (by omega)
  · exact hexDigitChar_valid _ (by omega)

theorem word32HexLE_valid (w : Nat) :
    ∀ c ∈ word32HexLE w, (isAsciiLower c || isAsciiDigit c) = true := by
  intro c hc
  unfold word32HexLE at hc
  simp only [List.mem_append] at hc
  rcases hc with ((h | h) | h) | h
  · exact byteHex_valid _ (by omega) c h
  · exact byteHex_valid _ (by omega) c h
  · exact byteHex_valid _ (by omega) c h
  · exact byteHex_valid _ (by omega) c h

theorem md5hex_valid (s : String) :
    ∀ c ∈ md5hex s, (isAsciiLower c || isAsciiDigit c) = true := by
  intro c hc
  unfold md5hex md5HexBytes at hc
  dsimp only [] at hc
  simp only [List.mem_append] at hc
  rcases hc with ((h | h) | h) | h <;> exact word32HexLE_valid _ c h

theorem md5hex_take6_valid (s : String) :
    ∀ c ∈ (md5hex s).take 6, validKeyChar c = true := by
  intro c hc
  have h := md5hex_valid s c (List.take_subset _ _ hc)
  simp only [validKeyChar, Bool.or_eq_true] at h ⊢
  tauto

theorem rawKey_valid_chars (s : String) : ∀ c ∈ rawKey s, validKeyChar c = true := by
  unfold rawKey
  dsimp only []
  split_ifs with h8 h4
  · intro c hc
    rcases List.mem_append.mp hc with h | h
    · refine keyWords_sub_valid s _ ?_ c h
      intro w hw
      rcases List.mem_append.mp hw with ht | ho
      · exact List.take_subset _ _ ht
      · have h1 : ((keyWordsOf s).drop 3).reverse.find?
            (fun w => decide (2 < w.length) && !(common_words.any fun c => c.data = w)) =
            some w := Option.mem_toList.mp ho
        exact List.drop_subset _ _ (List.mem_reverse.mp (List.mem_of_find?_eq_some h1))
    · rcases List.mem_cons.mp h with he | h6
      · subst he; decide
      · exact md5hex_take6_valid s c h6
  · intro c hc
    rcases List.mem_append.mp hc with h | h
    · refine keyWords_sub_valid s _ ?_ c h
      intro w hw
      rcases List.mem_append.mp hw with ht | ho
      · exact List.take_subset _ _ ht
      · exact absurd ho (by simp)
    · rcases List.mem_cons.mp h with he | h6
      · subst he; decide
      · exact md5hex_take6_valid s c h6
  · exact keyWords_sub_valid s _ (fun w hw => hw)

theorem fixupKey_valid (k : List Char) (hk : ∀ c ∈ k, validKeyChar c = true) :
    ∀ c ∈ fixupKey k, validKeyChar c = true := by
  have hkeyp : ∀ c ∈ ("key_".data : List Char), validKeyChar c = true := by decide
  have htext : ∀ c ∈ ("_text".data : List Char), validKeyChar c = true := by decide
  have hunk : ∀ c ∈ ("unknown_string".data : List Char), validKeyChar c = true := by decide
  have happ : ∀ (a b : List Char), (∀ c ∈ a, validKeyChar c = true) →
      (∀ c ∈ b, validKeyChar c = true) → ∀ c ∈ a ++ b, validKeyChar c = true := by
    intro a b ha hb c hc
    rcases List.mem_append.mp hc with h | h
    exacts [ha c h, hb c h]
  intro c hc
  unfold fixupKey at hc
  dsimp only [] at hc
  split_ifs at hc <;>
    first
    | exact hunk c hc
    | exact hk c hc
    | exact happ _ _ hk htext c hc
    | exact happ _ _ hkeyp hk c hc
    | exact happ _ _ (happ _ _ hkeyp hk) htext c hc

theorem fixupKey_ne_nil (k : List Char) : fixupKey k ≠ [] := by
  have hgen : ∀ (v : List Char), ¬(v.isEmpty = true) → v ≠ [] := by
    intro v h hv
    subst hv
    exact h rfl
  unfold fixupKey
  dsimp only []
  split_ifs <;> first | exact hgen _ (by assumption) | simp

theorem fixupKey_head_not_digit (k : List Char) :
    isAsciiDigit ((fixupKey k).headD ' ') = false := by
  cases k with
  | nil => decide
  | cons d ds =>
      unfold fixupKey
      dsimp only []
      by_cases h1 : (decide (d :: ds ≠ []) && isAsciiDigit ((d :: ds).headD ' ')) = true
      · rw [if_pos h1]
        by_cases h2 : (dart_keywords.any fun w =>
            decide (w.data = "key_".data ++ (d :: ds))) = true
        · rw [if_pos h2, if_neg (by simp)]
          rfl
        · rw [if_neg h2, if_neg (by simp)]
          rfl
      · have hd : isAsciiDigit d = false := by
          by_contra hcon
          rw [Bool.not_eq_false] at hcon
          exact h1 (by rw [Bool.and_eq_true]; exact ⟨by simp, hcon⟩)
        rw [if_neg h1]
        by_cases h2 : (dart_keywords.any fun w => decide (w.data = d :: ds)) = true
        · rw [if_pos h2, if_neg (by simp)]
          exact hd
        · rw [if_neg h2, if_neg (by simp)]
          exact hd

theorem fixupKey_not_keyword (k : List Char) :
    ∀ w ∈ dart_keywords, w.data ≠ fixupKey k := by
  intro w hw
  unfold fixupKey
  dsimp only []
  split_ifs <;> intro he <;>
    first
    | (apply kw_no_underscore w hw
       rw [he]
       decide)
    | (apply kw_no_underscore w hw
       rw [he]
       exact List.mem_append_right _ (by decide))
    | (apply kw_no_underscore w hw
       rw [he]
       exact List.mem_append_left _ (by decide))
    | exact (by assumption : ¬(dart_keywords.any fun x => decide (x.data = k)) = true)
        (by rw [List.any_eq_true]; exact ⟨w, hw, decide_eq_true he⟩)

theorem fixupKey_digit_lead (k : List Char) (hne : k ≠ [])
    (hd : isAsciiDigit (k.headD ' ') = true) : fixupKey k = "key_".data ++ k := by
  have hnkw : ¬((dart_keywords.any fun w => decide (w.data = "key_".data ++ k)) = true) := by
    intro hany
    rw [List.any_eq_true] at hany
    obtain ⟨w, hw, hwd⟩ := hany
    rw [decide_eq_true_eq] at hwd
    exact kw_no_underscore w hw (by rw [hwd]; exact List.mem_append_left _ (by decide))
  unfold fixupKey
  dsimp only []
  split_ifs <;>
    first
    | rfl
    | exact absurd (show (decide (k ≠ []) && isAsciiDigit (k.headD ' ')) = true from
        by rw [Bool.and_eq_true]; exact ⟨decide_eq_true hne, hd⟩) (by assumption)
    | exact absurd (by assumption) hnkw
    | exact absurd (by assumption : (("key_".data ++ k)).isEmpty = true) (by simp)

/-- C7: for every input text the key generator returns a non-empty key whose
characters are all lowercase letters, digits or underscores, whose first
character is not a digit, that equals no Dart reserved word; a digit-leading
raw key is prefixed with key_, and an empty raw key falls back to the fixed
token unknown_string. -/
theorem c7_key_validity (s : String) :
    (generate_key_from_string s).data ≠ [] ∧
    (∀ c ∈ (generate_key_from_string s).data, validKeyChar c = true) ∧
    isAsciiDigit ((generate_key_from_string s).data.headD ' ') = false ∧
    (∀ w ∈ dart_keywords, w ≠ generate_key_from_string s) ∧
    (rawKey s ≠ [] → isAsciiDigit ((rawKey s).headD ' ') = true →
      generate_key_from_string s = String.mk ("key_".data ++ rawKey s)) ∧
    (rawKey s = [] → generate_key_from_string s = "unknown_string") := by
  refine ⟨fixupKey_ne_nil (rawKey s), fixupKey_valid _ (rawKey_valid_chars s),
    fixupKey_head_not_digit _, ?_, ?_, ?_⟩
  · intro w hw he
    exact fixupKey_not_keyword (rawKey s) w hw (congrArg String.data he)
  · intro hne hd
    exact congrArg String.mk (fixupKey_digit_lead (rawKey s) hne hd)
  · intro h0
    rw [show generate_key_from_string s = String.mk (fixupKey (rawKey s)) from rfl, h0]
    rfl

/-- C7 (witness): the validity facts at concrete inputs, including the
digit-prefix and empty-fallback branches. -/
theorem c7_key_validity_witness :
    (generate_key_from_string "404 not found").data ≠ [] ∧
    isAsciiDigit ((generate_key_from_string "404 not found").data.headD ' ') = false ∧
    generate_key_from_string "404 not found" =
      String.mk ("key_".data ++ rawKey "404 not found") ∧
    generate_key_from_string "!!!" = "unknown_string" :=
  ⟨(c7_key_validity "404 not found").1,
   (c7_key_validity "404 not found").2.2.1,
   (c7_key_validity "404 not found").2.2.2.2.1 (by decide) (by decide),
   (c7_key_validity "!!!").2.2.2.2.2 (by decide)⟩
